import Mathlib

/-!
Verification development for the WebphoneLib calling client
(`src/unnamed/part_000`, class `WebCallingClient`, plus `src/types.ts`).

The TypeScript source is single-threaded: code between two `await`
points runs atomically, and continuations resume only after the awaited
promise settles.  We embed the client as a small-step event-loop system:

* `Client` mirrors the private fields of `WebCallingClient`
  (lines 42-53 of the source), together with the `once`-listeners the
  code arms on the engine (`ua.once('registered')`, `ua.once('unregistered')`,
  `ua.once('registrationFailed')`).
* Promises are identifiers (`Nat`) allocated from a fresh counter; a
  settled promise maps to `true` (fulfilled) or `false` (rejected), and
  settling is first-wins, as for JS promises.
* Each `async` method body is cut at its `await` points into atomic
  segments (`TaskK` is the program counter of one invocation);
  `runSeg` is the direct translation of each segment.
* Engine events (`registered`, `unregistered`, `registrationFailed`,
  transport `connected`, completion of `ua.disconnect()`) are
  environment steps that may fire in any order; theorems quantify over
  all schedules (`List Choice`).

The `transport.once('disconnected')` handler (lines 209-232) performs
reconnect supervision with `pRetry`; it is modelled separately
(`pRetryGo`, `reconnect`, `RSys`) because its only interaction with the
code above is through a fresh `connect()`/`disconnect()` cycle.
-/

/-! ### Small self-contained list helpers -/

def getAt? {α : Type} : List α → Nat → Option α
  | [], _ => none
  | a :: _, 0 => some a
  | _ :: l, n + 1 => getAt? l n

def setAt {α : Type} : List α → Nat → α → List α
  | [], _, _ => []
  | _ :: l, 0, b => b :: l
  | a :: l, n + 1, b => a :: setAt l n b

theorem mem_setAt {α : Type} {l : List α} {i : Nat} {b a : α}
    (h : a ∈ setAt l i b) : a ∈ l ∨ a = b := by
  induction l generalizing i with
  | nil => simp [setAt] at h
  | cons x l ih =>
    cases i with
    | zero =>
      simp [setAt] at h
      rcases h with h | h
      · exact Or.inr h
      · exact Or.inl (List.mem_cons_of_mem x h)
    | succ n =>
      simp [setAt] at h
      rcases h with h | h
      · exact Or.inl (by simp [h])
      · rcases ih h with h | h
        · exact Or.inl (List.mem_cons_of_mem x h)
        · exact Or.inr h

theorem getAt?_mem {α : Type} {l : List α} {i : Nat} {a : α}
    (h : getAt? l i = some a) : a ∈ l := by
  induction l generalizing i with
  | nil => simp [getAt?] at h
  | cons x l ih =>
    cases i with
    | zero => simp [getAt?] at h; simp [h]
    | succ n => exact List.mem_cons_of_mem x (ih (by simpa [getAt?] using h))

theorem getAt?_lt_length {α : Type} {l : List α} {i : Nat} {a : α}
    (h : getAt? l i = some a) : i < l.length := by
  induction l generalizing i with
  | nil => simp [getAt?] at h
  | cons x l ih =>
    cases i with
    | zero => simp
    | succ n =>
      have := ih (by simpa [getAt?] using h)
      simpa using Nat.succ_lt_succ this

theorem mem_getAt? {α : Type} {l : List α} {a : α}
    (h : a ∈ l) : ∃ i, getAt? l i = some a := by
  induction l with
  | nil => simp at h
  | cons x l ih =>
    rcases List.mem_cons.mp h with h | h
    · exact ⟨0, by simp [getAt?, h]⟩
    · rcases ih h with ⟨i, hi⟩
      exact ⟨i + 1, by simpa [getAt?] using hi⟩

theorem getAt?_append_left {α : Type} {l₁ l₂ : List α} {i : Nat}
    (h : i < l₁.length) : getAt? (l₁ ++ l₂) i = getAt? l₁ i := by
  induction l₁ generalizing i with
  | nil => simp at h
  | cons x l ih =>
    cases i with
    | zero => simp [getAt?]
    | succ n =>
      simp only [List.cons_append, getAt?]
      exact ih (by simpa using Nat.lt_of_succ_lt_succ h)

theorem getAt?_append_right {α : Type} {l₁ l₂ : List α} {i : Nat}
    (h : l₁.length ≤ i) : getAt? (l₁ ++ l₂) i = getAt? l₂ (i - l₁.length) := by
  induction l₁ generalizing i with
  | nil => simp
  | cons x l ih =>
    cases i with
    | zero => simp at h
    | succ n =>
      simp only [List.cons_append, getAt?, List.length_cons]
      have := ih (i := n) (by simpa using Nat.le_of_succ_le_succ h)
      simpa [Nat.succ_sub_succ] using this

/-! ### Log/event vocabulary

`Msg` enumerates the console messages the source emits; `LogLevel`
models the console channel used (`console.log` versus `console.error`;
the source never calls `console.warn`, but the channel exists in the
console API, so it is a constructor here). -/

inductive LogLevel
  | log
  | warn
  | error
deriving DecidableEq, Repr

inductive Msg
  | configuringUA                   -- line 73
  | cannotConnectWhileUnregistering -- lines 78-80
  | tryingToUnregister              -- line 130
  | unregisteredMsg                 -- line 139
  | disconnectedMsg                 -- line 143
deriving DecidableEq, Repr

/-- Observable events of one execution: console output, commands issued
to the engine, engine events observed, and the creation of a fresh
registration cycle (the `new Promise` at line 89, which is the start of
a registration cycle in the sense of the spec). -/
inductive Ev
  | console (lvl : LogLevel) (m : Msg)
  | cycleStart (p : Nat)
  | uaStart          -- this.ua.start(), line 97
  | uaRegister       -- this.ua.register(), line 105
  | uaUnregister     -- this.ua.unregister(), line 131
  | uaDisconnectCmd  -- await this.ua.disconnect(), line 141
  | evRegistered
  | evRegistrationFailed
  | evUnregistered
  | evTransportConnected
deriving DecidableEq, Repr

/-- Result of one finished `connect()`/`disconnect()` invocation. -/
inductive TRes
  | promise (p : Nat)     -- `connect` returned `this.registeredPromise`
  | unit                  -- `disconnect` returned normally
  | jsError               -- TypeError from accessing a deleted `this.ua`
  | notConnectedError     -- `throw new Error('not connected')`, line 117
  | connectError          -- `throw new Error(...)`, line 102
deriving DecidableEq, Repr

/-- Program counter of one `async` invocation, cut at its `await`s.

* `connect0`  : entry of `connect()` (lines 71-83, up to `await this.unregisteredPromise`)
* `connect1`  : lines 85-97, up to `await this.transportConnectedPromise`
* `connect2 p`: lines 100-107 with `this.registeredPromise = p`
* `disconnect0`: entry of `disconnect()` (lines 111-136, up to `await this.unregisteredPromise`)
* `disconnect1`: lines 139-141, up to `await this.ua.disconnect()`
* `disconnect2`: lines 143-150
* `done r`    : invocation finished with result `r` -/
inductive TaskK
  | connect0
  | connect1
  | connect2 (p : Nat)
  | disconnect0
  | disconnect1
  | disconnect2
  | done (r : TRes)
deriving DecidableEq, Repr

structure Frame where
  k : TaskK
  blockedOn : Option Nat
deriving DecidableEq, Repr

/-- Mirror of the private fields of `WebCallingClient` (lines 42-53),
plus the `once`-listeners currently armed on the engine.  A listener is
recorded by the promise it settles:

* `regOnce`     : `this.ua.once('registered', ...)`, line 90
* `regFailOnce` : `this.ua.once('registrationFailed', ...)`, line 94
* `unregOnce`   : `this.ua.once('unregistered', ...)`, line 124

`sessions` maps a session id to its (opaque) engine handle. -/
structure Client where
  ua : Bool
  transportConnectedPromise : Option Nat
  unregisteredPromise : Option Nat
  registeredPromise : Option Nat
  disconnectPromise : Option Nat
  registered : Bool
  isReconnecting : Bool
  sessions : List (String × Nat)
  regOnce : List Nat
  regFailOnce : List Nat
  unregOnce : List Nat
deriving DecidableEq, Repr

/-- Field initializers of `WebCallingClient` (lines 42-53): no engine,
no pending promises, not registered. -/
def initialClient : Client :=
  { ua := false
    transportConnectedPromise := none
    unregisteredPromise := none
    registeredPromise := none
    disconnectPromise := none
    registered := false
    isReconnecting := false
    sessions := []
    regOnce := []
    regFailOnce := []
    unregOnce := [] }

/-- State of the event loop: the client, the in-flight invocations, the
settled promises (`true` fulfilled, `false` rejected), the promises of
pending `ua.disconnect()` engine operations, the observable trace, and
the fresh-id counter. -/
structure Sys where
  c : Client
  tasks : List Frame
  resolved : List (Nat × Bool)
  pendingUaDisconnect : List Nat
  trace : List Ev
  fresh : Nat
deriving DecidableEq, Repr

def lookupP : List (Nat × Bool) → Nat → Option Bool
  | [], _ => none
  | (q, v) :: rs, p => if p = q then some v else lookupP rs p

/-- Settling is first-wins: settling an already settled promise is a no-op. -/
def resolveP (rs : List (Nat × Bool)) (p : Nat) (v : Bool) : List (Nat × Bool) :=
  match lookupP rs p with
  | some _ => rs
  | none => (p, v) :: rs

def resolveAll (rs : List (Nat × Bool)) (ps : List Nat) (v : Bool) : List (Nat × Bool) :=
  ps.foldl (fun acc p => resolveP acc p v) rs

def isResolved (s : Sys) (p : Nat) : Bool :=
  (lookupP s.resolved p).isSome

/-- A task may run when it is not blocked, or its awaited promise has settled. -/
def runnable (s : Sys) (t : Frame) : Bool :=
  match t.blockedOn with
  | none => true
  | some p => isResolved s p

/-- Direct translation of one atomic segment of `connect()` /
`disconnect()` (see `TaskK` for the line ranges).  Returns the updated
system (tasks untouched) and the task's continuation. -/
def runSeg (s : Sys) (t : Frame) : Sys × Frame :=
  match t.k with
  | .connect0 =>
    -- lines 71-75: `if (!this.ua) { console.log('configuring ua'); this.configureUA(); }`
    -- `configureUA` (lines 198-234) creates the engine and a fresh
    -- `transportConnectedPromise` (it does not touch `unregisteredPromise`).
    -- lines 77-83: if an unregistration is in flight, log on the error
    -- channel and await it; otherwise fall through.
    if s.c.ua then
      match s.c.unregisteredPromise with
      | some q =>
        ({ s with trace := s.trace ++ [Ev.console .error .cannotConnectWhileUnregistering] },
         ⟨.connect1, some q⟩)
      | none => (s, ⟨.connect1, none⟩)
    else
      match s.c.unregisteredPromise with
      | some q =>
        ({ s with c := { s.c with ua := true, transportConnectedPromise := some s.fresh }
                , trace := s.trace ++ [Ev.console .log .configuringUA,
                                       Ev.console .error .cannotConnectWhileUnregistering]
                , fresh := s.fresh + 1 },
         ⟨.connect1, some q⟩)
      | none =>
        ({ s with c := { s.c with ua := true, transportConnectedPromise := some s.fresh }
                , trace := s.trace ++ [Ev.console .log .configuringUA]
                , fresh := s.fresh + 1 },
         ⟨.connect1, none⟩)
  | .connect1 =>
    -- lines 85-87: an existing registration future is returned as is.
    match s.c.registeredPromise with
    | some p => (s, ⟨.done (.promise p), none⟩)
    | none =>
      -- lines 89-97: create the registration future, arm the
      -- `registered`/`registrationFailed` once-listeners, start the
      -- engine, and await transport readiness.
      let p := s.fresh
      if s.c.ua then
        ({ s with
            c := { s.c with registeredPromise := some p
                          , regOnce := s.c.regOnce ++ [p]
                          , regFailOnce := s.c.regFailOnce ++ [p] }
            trace := s.trace ++ [Ev.cycleStart p, Ev.uaStart]
            fresh := p + 1 },
         ⟨.connect2 p, s.c.transportConnectedPromise⟩)
      else
        -- `this.ua` was deleted by a concurrent `disconnect()`: the
        -- promise executor (line 90) throws, leaving a rejected future,
        -- and the invocation fails with a TypeError.
        ({ s with
            c := { s.c with registeredPromise := some p }
            trace := s.trace ++ [Ev.cycleStart p]
            resolved := resolveP s.resolved p false
            fresh := p + 1 },
         ⟨.done .jsError, none⟩)
  | .connect2 p =>
    -- lines 100-107: the awaited transport promise either rejected
    -- (caught, rethrown as the retry-exhausted error) or fulfilled, in
    -- which case `this.ua.register()` is issued and the registration
    -- future is returned.
    let okTransport : Bool :=
      match t.blockedOn with
      | some tp => lookupP s.resolved tp != some false
      | none => true
    if okTransport then
      if s.c.ua then
        ({ s with trace := s.trace ++ [Ev.uaRegister] }, ⟨.done (.promise p), none⟩)
      else (s, ⟨.done .jsError, none⟩)
    else (s, ⟨.done .connectError, none⟩)
  | .disconnect0 =>
    -- lines 112-114: the guard on `this.disconnectPromise`.  (The field
    -- is never assigned anywhere in the source, so this branch is dead.)
    match s.c.disconnectPromise with
    | some d => (s, ⟨.done (.promise d), none⟩)
    | none =>
      -- lines 116-118
      if s.c.ua then
        -- line 120: `delete this.registeredPromise`
        let c1 := { s.c with registeredPromise := none }
        if c1.registered then
          -- lines 122-136: create the unregistered future, arm its
          -- listener, issue `ua.unregister()`, and await it.
          let q := s.fresh
          ({ s with
              c := { c1 with unregisteredPromise := some q
                           , unregOnce := c1.unregOnce ++ [q] }
              trace := s.trace ++ [Ev.console .log .tryingToUnregister, Ev.uaUnregister]
              fresh := q + 1 },
           ⟨.disconnect1, some q⟩)
        else
          ({ s with c := c1 }, ⟨.disconnect1, none⟩)
      else (s, ⟨.done .notConnectedError, none⟩)
  | .disconnect1 =>
    -- lines 139-141: log, then issue and await `this.ua.disconnect()`.
    if s.c.ua then
      let d := s.fresh
      ({ s with
          pendingUaDisconnect := s.pendingUaDisconnect ++ [d]
          trace := s.trace ++ [Ev.console .log .unregisteredMsg, Ev.uaDisconnectCmd]
          fresh := d + 1 },
       ⟨.disconnect2, some d⟩)
    else (s, ⟨.done .jsError, none⟩)
  | .disconnect2 =>
    -- lines 143-150: log, detach all engine listeners, release the
    -- engine reference, and delete the unregistered future.
    if s.c.ua then
      ({ s with
          c := { s.c with ua := false
                        , unregisteredPromise := none
                        , regOnce := []
                        , regFailOnce := []
                        , unregOnce := [] }
          trace := s.trace ++ [Ev.console .log .disconnectedMsg] },
       ⟨.done .unit, none⟩)
    else (s, ⟨.done .jsError, none⟩)
  | .done r => (s, ⟨.done r, t.blockedOn⟩)

/-- Engine emits `registered` (observed by the once-listeners of line 90):
sets `this.registered = true` and fulfils each armed future. -/
def fireRegistered (s : Sys) : Sys :=
  if s.c.ua && !s.c.regOnce.isEmpty then
    { s with c := { s.c with registered := true, regOnce := [] }
           , resolved := resolveAll s.resolved s.c.regOnce true
           , trace := s.trace ++ [Ev.evRegistered] }
  else s

/-- Engine emits `registrationFailed` (line 94): rejects each armed future. -/
def fireRegistrationFailed (s : Sys) : Sys :=
  if s.c.ua && !s.c.regFailOnce.isEmpty then
    { s with c := { s.c with regFailOnce := [] }
           , resolved := resolveAll s.resolved s.c.regFailOnce false
           , trace := s.trace ++ [Ev.evRegistrationFailed] }
  else s

/-- Engine emits `unregistered` (lines 123-128): sets
`this.registered = false` and fulfils each armed future. -/
def fireUnregistered (s : Sys) : Sys :=
  if s.c.ua && !s.c.unregOnce.isEmpty then
    { s with c := { s.c with registered := false, unregOnce := [] }
           , resolved := resolveAll s.resolved s.c.unregOnce true
           , trace := s.trace ++ [Ev.evUnregistered] }
  else s

/-- Engine transport connects (lines 204-207): fulfils the transport
readiness future. -/
def fireTransportConnected (s : Sys) : Sys :=
  if s.c.ua then
    match s.c.transportConnectedPromise with
    | some tp =>
      { s with resolved := resolveP s.resolved tp true
             , trace := s.trace ++ [Ev.evTransportConnected] }
    | none => s
  else s

/-- Engine finishes a pending `ua.disconnect()` operation. -/
def fireUaDisconnectDone (s : Sys) (i : Nat) : Sys :=
  match getAt? s.pendingUaDisconnect i with
  | some d => { s with resolved := resolveP s.resolved d true }
  | none => s

inductive Choice
  | runTask (i : Nat)
  | fireRegistered
  | fireRegistrationFailed
  | fireUnregistered
  | fireTransportConnected
  | fireUaDisconnectDone (i : Nat)
deriving DecidableEq, Repr

def step (s : Sys) : Choice → Sys
  | .runTask i =>
    match getAt? s.tasks i with
    | some t =>
      if runnable s t then
        let out := runSeg s t
        { out.1 with tasks := setAt out.1.tasks i out.2 }
      else s
    | none => s
  | .fireRegistered => fireRegistered s
  | .fireRegistrationFailed => fireRegistrationFailed s
  | .fireUnregistered => fireUnregistered s
  | .fireTransportConnected => fireTransportConnected s
  | .fireUaDisconnectDone i => fireUaDisconnectDone s i

def run (s : Sys) (cs : List Choice) : Sys :=
  cs.foldl step s

/-! ### Scenario builders -/

/-- A client `c0` with no listeners armed yet, `n` fresh overlapping
`connect()` invocations, and fresh ids starting at `f0`. -/
def connectSys (c0 : Client) (n f0 : Nat) : Sys :=
  { c := { c0 with regOnce := [], regFailOnce := [], unregOnce := [] }
    tasks := List.replicate n ⟨.connect0, none⟩
    resolved := []
    pendingUaDisconnect := []
    trace := []
    fresh := f0 }

/-- A client `c0` with no listeners armed yet and one fresh
`disconnect()` invocation. -/
def disconnectSys (c0 : Client) (f0 : Nat) : Sys :=
  { c := { c0 with regOnce := [], regFailOnce := [], unregOnce := [] }
    tasks := [⟨.disconnect0, none⟩]
    resolved := []
    pendingUaDisconnect := []
    trace := []
    fresh := f0 }

/-- A client mid-unregistration: the unregistered future `q` is pending
with its once-listener armed (the state left by a `disconnect()` that is
awaiting the `unregistered` event), and one fresh `connect()` call
arrives. -/
def connectDuringUnregSys (c0 : Client) (q f0 : Nat) : Sys :=
  { c := { c0 with unregisteredPromise := some q
                 , regOnce := [], regFailOnce := [], unregOnce := [q] }
    tasks := [⟨.connect0, none⟩]
    resolved := []
    pendingUaDisconnect := []
    trace := []
    fresh := f0 }

/-- Results of the invocations that have finished. -/
def doneResults (s : Sys) : List TRes :=
  s.tasks.filterMap fun t =>
    match t.k with
    | .done r => some r
    | _ => none

def isCycleStart : Ev → Bool
  | .cycleStart _ => true
  | _ => false

def cycleCount (tr : List Ev) : Nat :=
  (tr.filter isCycleStart).length

/-- `p` is below the bound when present. -/
def optLt : Option Nat → Nat → Prop
  | none, _ => True
  | some x, b => x < b

instance (o : Option Nat) (b : Nat) : Decidable (optLt o b) := by
  cases o with
  | none => exact isTrue trivial
  | some x => exact (inferInstance : Decidable (x < b))

/-- Events of `tr` satisfying `trig` occur only strictly after some
event satisfying `req`. -/
def evBefore (tr : List Ev) (trig req : Ev → Bool) : Prop :=
  ∀ i e, getAt? tr i = some e → trig e = true →
    ∃ j f, j < i ∧ getAt? tr j = some f ∧ req f = true

theorem evBefore_append {tr evs : List Ev} {trig req : Ev → Bool}
    (h1 : evBefore tr trig req)
    (h2 : ∀ e ∈ evs, trig e = true → ∃ f ∈ tr, req f = true) :
    evBefore (tr ++ evs) trig req := by
  intro i e hget htrig
  by_cases hlt : i < tr.length
  · rw [getAt?_append_left hlt] at hget
    rcases h1 i e hget htrig with ⟨j, f, hj, hjf, hreq⟩
    refine ⟨j, f, hj, ?_, hreq⟩
    rw [getAt?_append_left (getAt?_lt_length hjf)]
    exact hjf
  · have hle : tr.length ≤ i := Nat.le_of_not_lt hlt
    rw [getAt?_append_right hle] at hget
    have hmem : e ∈ evs := getAt?_mem hget
    rcases h2 e hmem htrig with ⟨f, hf, hreq⟩
    rcases mem_getAt? hf with ⟨j, hj⟩
    have hjlt : j < tr.length := getAt?_lt_length hj
    exact ⟨j, f, Nat.lt_of_lt_of_le hjlt hle,
      by rw [getAt?_append_left hjlt]; exact hj, hreq⟩

theorem evBefore_nil {trig req : Ev → Bool} : evBefore [] trig req := by
  intro i e hget
  cases i <;> simp [getAt?] at hget

/-! ### The reconnect retry loop (lines 174-196)

`reconnect()` wraps `pRetry(this.connect.bind(this), {..., retries: this.retries})`.
p-retry's contract: the function is invoked up to `retries + 1` times
(one initial attempt plus `retries` retries); every failed attempt —
including the final one — invokes `onFailedAttempt` with
`error.attemptNumber` (1-based) and `error.retriesLeft = retries - attemptNumber + 1`;
when the final attempt fails, the returned promise rejects.

`outcome n` is the result of the n-th `connect()` attempt
(`true` = connected).  `reports` collects the
`(attemptNumber, retriesLeft)` pairs passed to `onFailedAttempt`
(which `reconnect` prints at lines 182-186). -/

structure PRetryResult where
  reports : List (Nat × Nat)
  succeeded : Bool
  attempts : Nat
deriving DecidableEq, Repr

def pRetryGo (outcome : Nat → Bool) (retries : Nat) : Nat → Nat → PRetryResult
  | _, 0 => ⟨[], false, 0⟩
  | n, fuel + 1 =>
    if outcome n then ⟨[], true, 1⟩
    else
      let report := (n, retries + 1 - n)
      if retries + 1 ≤ n then ⟨[report], false, 1⟩
      else
        let r := pRetryGo outcome retries (n + 1) fuel
        ⟨report :: r.reports, r.succeeded, r.attempts + 1⟩

def pRetry (outcome : Nat → Bool) (retries : Nat) : PRetryResult :=
  pRetryGo outcome retries 1 (retries + 1)

/-- `WebCallingClient.reconnect` (lines 174-196): sets
`this.isReconnecting = true`, runs `pRetry` over `connect()` attempts,
and returns `true` on success and `false` once the retry budget is
exhausted (the `catch` branch, lines 192-195, after which no further
attempt is made). -/
structure ReconnectResult where
  isReconnectingSetAtEntry : Bool
  reports : List (Nat × Nat)
  attempts : Nat
  returned : Bool
deriving DecidableEq, Repr

def reconnect (retries : Nat) (outcome : Nat → Bool) : ReconnectResult :=
  let r := pRetry outcome retries
  ⟨true, r.reports, r.attempts, r.succeeded⟩

/-- Default retry budget, line 53: `private retries: number = 10`. -/
def defaultRetries : Nat := 10

/-! ### Reconnect supervision (the `transport.once('disconnected')`
handler, lines 209-232)

Each unexpected transport loss fires one handler instance.  A handler
first awaits `this.disconnect()` (line 212); then, atomically (there is
no `await` between line 214 and the `this.isReconnecting = true` at
line 175 inside `reconnect`), it checks `this.isReconnecting`: if set,
it only rejects — feeding the failure to the `pRetry` attempt of the
already-running supervision loop (lines 214-221) — otherwise it starts
the supervision loop.  When the loop finishes, line 225 clears the
flag.

* `h0`    : handler fired, awaiting `this.disconnect()`
* `h1`    : about to run the `isReconnecting` check
* `hloop` : this handler started `reconnect()` and its supervision loop runs
* `hdone started` : handler finished; `started = false` means it only
  rejected (treated as a failure of the current attempt). -/
inductive HPc
  | h0
  | h1
  | hloop
  | hdone (started : Bool)
deriving DecidableEq, Repr

structure RSys where
  isReconnecting : Bool
  handlers : List HPc
deriving DecidableEq, Repr

inductive RChoice
  | spawn                      -- a transport 'disconnected' event fires a handler
  | advance (i : Nat)          -- the handler's `await this.disconnect()` resolves
  | check (i : Nat)            -- lines 214-223: flag check, then reject or start loop
  | finish (i : Nat)           -- the loop's `await this.reconnect()` returns, line 225
deriving DecidableEq, Repr

def rstep (s : RSys) : RChoice → RSys
  | .spawn => { s with handlers := s.handlers ++ [.h0] }
  | .advance i =>
    match getAt? s.handlers i with
    | some .h0 => { s with handlers := setAt s.handlers i .h1 }
    | _ => s
  | .check i =>
    match getAt? s.handlers i with
    | some .h1 =>
      if s.isReconnecting then
        -- lines 214-221: `reject(e); return;` — no new loop
        { s with handlers := setAt s.handlers i (.hdone false) }
      else
        -- line 223 + line 175: start `reconnect()`, which sets the flag
        { isReconnecting := true, handlers := setAt s.handlers i .hloop }
    | _ => s
  | .finish i =>
    match getAt? s.handlers i with
    | some .hloop =>
      -- line 225: `this.isReconnecting = false` after the loop returns
      { isReconnecting := false, handlers := setAt s.handlers i (.hdone true) }
    | _ => s

def rrun (s : RSys) (cs : List RChoice) : RSys :=
  cs.foldl rstep s

def countLoop : List HPc → Nat
  | [] => 0
  | h :: l => (if h = HPc.hloop then 1 else 0) + countLoop l

/-- Number of reconnect supervision loops currently in progress. -/
def activeLoops (s : RSys) : Nat :=
  countLoop s.handlers

/-- Initial state: no transport loss yet, flag clear (line 52). -/
def rInit : RSys := ⟨false, []⟩

/-! ### `invite()` (lines 154-172) -/

/-- First segment of `invite()`: the guard at lines 155-157 throws if no
registration future exists; otherwise the invocation suspends on
`await this.registeredPromise` (line 159) before any session is
created. -/
inductive InviteOutcome
  | throwNotRegistered        -- `throw new Error('Register first!')`
  | awaitRegistered (p : Nat) -- suspends on the registration future
deriving DecidableEq, Repr

def invite0 (c : Client) : InviteOutcome :=
  match c.registeredPromise with
  | none => .throwNotRegistered
  | some p => .awaitRegistered p

/-- Resumption of `invite()` after the registration future fulfils
(lines 161-171): build the session, key it into the registry, and arm
its one-shot `terminated` cleanup listener. -/
def inviteResume (c : Client) (sid : String) (handle : Nat) : Client :=
  { c with sessions := (sid, handle) :: c.sessions }

/-! ### One-shot session termination cleanup (lines 169 and 250)

Both the outbound path (`invite`, line 169) and the inbound path
(`configureUA`'s `invite` handler, line 250) register
`session.once('terminated', () => delete this.sessions[session.id])`.
`once` listeners are removed after their first invocation, so a second
`terminated` emission from the engine finds no listener.

`armed` holds the session ids whose one-shot cleanup listener is still
registered. -/
structure SessionRegistry where
  sessions : List (String × Nat)
  armed : List String
deriving DecidableEq, Repr

/-- Session creation (lines 161-169 / 240-250): insert the session and
arm its one-shot cleanup listener. -/
def addSession (st : SessionRegistry) (sid : String) (handle : Nat) : SessionRegistry :=
  { sessions := (sid, handle) :: st.sessions, armed := sid :: st.armed }

def countOcc : List String → String → Nat
  | [], _ => 0
  | x :: l, a => (if x = a then 1 else 0) + countOcc l a

def removeOnce : List String → String → List String
  | [], _ => []
  | x :: l, a => if x = a then l else x :: removeOnce l a

/-- The engine emits `terminated` for session `sid`: if the one-shot
listener is still armed it runs `delete this.sessions[sid]` and is
removed (a `once` listener fires at most once); otherwise nothing
happens. -/
def emitTerminated (st : SessionRegistry) (sid : String) : SessionRegistry :=
  if sid ∈ st.armed then
    { sessions := st.sessions.filter (fun e => !(e.1 == sid))
      armed := removeOnce st.armed sid }
  else st

def hasSession (st : SessionRegistry) (sid : String) : Bool :=
  st.sessions.any (fun e => e.1 == sid)

/-! ### Configuration (constructor lines 55-59, `configure` lines 272-295)

The options object is destructured as
`const { account, transport, media } = options;` — any other property
of the object is never read.  In JavaScript a missing property
destructures to `undefined`; the subsequent property accesses
`account.user`, `account.password`, `transport.iceServers`,
`transport.wsServers`, `account.uri` then throw a `TypeError` when the
containing object is `undefined`.  `media` is only stored, never
dereferenced, so a missing `media` is accepted.  No validation of any
kind is performed and the source defines no ConfigurationError. -/

structure IAccount where
  user : String
  password : String
  uri : String
  name : String
deriving DecidableEq, Repr

structure ITransport where
  wsServers : String
  iceServers : List String
deriving DecidableEq, Repr

/-- The options object as passed by the caller: each expected property
may be absent, and the object may carry arbitrary unrecognized
properties (modelled by their names). -/
structure OptionsObject where
  account : Option IAccount
  transport : Option ITransport
  media : Option Nat
  extraFields : List String
deriving DecidableEq, Repr

inductive JsError
  | typeError
deriving DecidableEq, Repr

/-- The translated UA options that `configure` stores into
`this.options` (only the parts derived from the input; the constant
defaults of lines 254-270 are omitted as they do not depend on the
input). -/
structure IWrappedUAOptions where
  authorizationUser : String
  password : String
  uri : String
  iceServers : List String
  wsServers : String
  media : Option Nat
deriving DecidableEq, Repr

/-- `WebCallingClient.configure` (lines 272-295). -/
def configure (o : OptionsObject) : Except JsError IWrappedUAOptions :=
  match o.account, o.transport with
  | some account, some transport =>
    .ok { authorizationUser := account.user
          password := account.password
          uri := account.uri
          iceServers := transport.iceServers
          wsServers := transport.wsServers
          media := o.media }
  | _, _ => .error .typeError

/-- The constructor (lines 55-59): run `configure`; on success the
client starts from the field initializers. -/
def construct (o : OptionsObject) : Except JsError (Client × IWrappedUAOptions) :=
  (configure o).map (fun opts => (initialClient, opts))

/-! ### Helper lemmas about promises, traces and the step function -/

theorem lookupP_resolveP {rs : List (Nat × Bool)} {p : Nat} {v : Bool} {x : Nat} {w : Bool}
    (h : lookupP (resolveP rs p v) x = some w) :
    lookupP rs x = some w ∨ (x = p ∧ w = v) := by
  unfold resolveP at h
  cases hl : lookupP rs p with
  | some u => rw [hl] at h; exact Or.inl h
  | none =>
    rw [hl] at h
    by_cases hx : x = p
    · subst hx
      simp [lookupP] at h
      exact Or.inr ⟨rfl, h.symm⟩
    · simp [lookupP, hx] at h
      exact Or.inl h

theorem lookupP_resolveP_ne {rs : List (Nat × Bool)} {p : Nat} {v : Bool} {x : Nat}
    (hx : x ≠ p) : lookupP (resolveP rs p v) x = lookupP rs x := by
  unfold resolveP
  cases hl : lookupP rs p with
  | some u => rfl
  | none => simp [lookupP, hx]

theorem lookupP_resolveAll {rs : List (Nat × Bool)} {ps : List Nat} {v : Bool} {x : Nat} {w : Bool}
    (h : lookupP (resolveAll rs ps v) x = some w) :
    lookupP rs x = some w ∨ (x ∈ ps ∧ w = v) := by
  induction ps generalizing rs with
  | nil => exact Or.inl h
  | cons p ps ih =>
    simp only [resolveAll, List.foldl_cons] at h
    rcases ih h with h | h
    · rcases lookupP_resolveP h with h | ⟨hx, hw⟩
      · exact Or.inl h
      · exact Or.inr ⟨by simp [hx], hw⟩
    · exact Or.inr ⟨List.mem_cons_of_mem p h.1, h.2⟩

theorem lookupP_resolveAll_ne {rs : List (Nat × Bool)} {ps : List Nat} {v : Bool} {x : Nat}
    (hx : ∀ p ∈ ps, x ≠ p) : lookupP (resolveAll rs ps v) x = lookupP rs x := by
  induction ps generalizing rs with
  | nil => rfl
  | cons p ps ih =>
    have h1 : resolveAll rs (p :: ps) v = resolveAll (resolveP rs p v) ps v := rfl
    rw [h1, ih (fun a ha => hx a (List.mem_cons_of_mem p ha)),
      lookupP_resolveP_ne (hx p (by simp))]

theorem mem_doneResults {s : Sys} {r : TRes} :
    r ∈ doneResults s ↔ ∃ t ∈ s.tasks, t.k = TaskK.done r := by
  unfold doneResults
  rw [List.mem_filterMap]
  constructor
  · rintro ⟨t, ht, hf⟩
    refine ⟨t, ht, ?_⟩
    cases hk : t.k <;> simp_all
  · rintro ⟨t, ht, hk⟩
    exact ⟨t, ht, by simp [hk]⟩

theorem cycleCount_append (l1 l2 : List Ev) :
    cycleCount (l1 ++ l2) = cycleCount l1 + cycleCount l2 := by
  simp [cycleCount, List.filter_append]

def countEv : List Ev → Ev → Nat
  | [], _ => 0
  | x :: l, e => (if x = e then 1 else 0) + countEv l e

theorem runSeg_sessions (s : Sys) (t : Frame) :
    (runSeg s t).1.c.sessions = s.c.sessions := by
  cases hk : t.k <;> simp only [runSeg, hk] <;> (repeat' split) <;> rfl

theorem runSeg_disconnectPromise (s : Sys) (t : Frame) :
    (runSeg s t).1.c.disconnectPromise = s.c.disconnectPromise := by
  cases hk : t.k <;> simp only [runSeg, hk] <;> (repeat' split) <;> rfl

/-- No segment of `connect()`/`disconnect()` and no engine event touches
the session registry: `disconnect()` clears promises, listeners and the
engine reference, but never `this.sessions` (lines 111-150). -/
theorem step_sessions (s : Sys) (ch : Choice) :
    (step s ch).c.sessions = s.c.sessions := by
  cases ch with
  | runTask i =>
    cases hg : getAt? s.tasks i with
    | none => simp [step, hg]
    | some t =>
      by_cases hr : runnable s t
      · simp only [step, hg, hr, if_true]
        exact runSeg_sessions s t
      · simp [step, hg, hr]
  | fireRegistered => simp only [step, fireRegistered]; split <;> rfl
  | fireRegistrationFailed => simp only [step, fireRegistrationFailed]; split <;> rfl
  | fireUnregistered => simp only [step, fireUnregistered]; split <;> rfl
  | fireTransportConnected =>
    simp only [step, fireTransportConnected]
    (repeat' split) <;> rfl
  | fireUaDisconnectDone i =>
    simp only [step, fireUaDisconnectDone]
    (repeat' split) <;> rfl

/-- The field `disconnectPromise` is read (lines 112-114) but never
assigned anywhere in the source; no step changes it. -/
theorem step_disconnectPromise (s : Sys) (ch : Choice) :
    (step s ch).c.disconnectPromise = s.c.disconnectPromise := by
  cases ch with
  | runTask i =>
    cases hg : getAt? s.tasks i with
    | none => simp [step, hg]
    | some t =>
      by_cases hr : runnable s t
      · simp only [step, hg, hr, if_true]
        exact runSeg_disconnectPromise s t
      · simp [step, hg, hr]
  | fireRegistered => simp only [step, fireRegistered]; split <;> rfl
  | fireRegistrationFailed => simp only [step, fireRegistrationFailed]; split <;> rfl
  | fireUnregistered => simp only [step, fireUnregistered]; split <;> rfl
  | fireTransportConnected =>
    simp only [step, fireTransportConnected]
    (repeat' split) <;> rfl
  | fireUaDisconnectDone i =>
    simp only [step, fireUaDisconnectDone]
    (repeat' split) <;> rfl

/-! ### C2: the retry loop when every attempt fails -/

theorem pRetryGo_succ (outcome : Nat → Bool) (retries n m : Nat) :
    pRetryGo outcome retries n (m + 1) =
      if outcome n then ⟨[], true, 1⟩
      else if retries + 1 ≤ n then ⟨[(n, retries + 1 - n)], false, 1⟩
      else
        ⟨(n, retries + 1 - n) :: (pRetryGo outcome retries (n + 1) m).reports,
          (pRetryGo outcome retries (n + 1) m).succeeded,
          (pRetryGo outcome retries (n + 1) m).attempts + 1⟩ := rfl

theorem pRetryGo_allFail (retries : Nat) :
    ∀ (fuel n : Nat), n + fuel = retries + 2 →
      pRetryGo (fun _ => false) retries n fuel =
        ⟨(List.range' n fuel).map (fun a => (a, retries + 1 - a)), false, fuel⟩ := by
  intro fuel
  induction fuel with
  | zero => intro n h; simp [pRetryGo]
  | succ m ih =>
    intro n h
    rw [pRetryGo_succ]
    rw [if_neg (by simp)]
    cases m with
    | zero =>
      have hn : n = retries + 1 := by omega
      subst hn
      rw [if_pos (by omega)]
      simp [List.range'_succ]
    | succ m2 =>
      rw [if_neg (by omega)]
      rw [ih (n + 1) (by omega)]
      rw [List.range'_succ n (m2 + 1) 1, List.map_cons]

/-- C2 (amended): for a reconnect supervision sequence with retry limit
`n` in which every `connect()` attempt fails, exactly `n + 1` attempts
occur (one initial attempt plus `n` retries; the source default
`retries = 10` gives 11 attempts, matching the error message at line
102, `Tried to connect retries + 1 times`).  Every failed attempt `a`
(for `a = 1 .. n + 1`) is reported with its attempt number and the
decreasing remaining-attempts count `n + 1 - a` (down to 0), the flag
`isReconnecting` is set at entry, and `reconnect` then returns `false`
(the `catch` at lines 192-195: final failure, no further attempt). -/
theorem reconnect_allfail_attempts_and_reports (n : Nat) :
    (reconnect n (fun _ => false)).attempts = n + 1 ∧
    (reconnect n (fun _ => false)).reports =
      (List.range' 1 (n + 1)).map (fun a => (a, n + 1 - a)) ∧
    (reconnect n (fun _ => false)).returned = false ∧
    (reconnect n (fun _ => false)).isReconnectingSetAtEntry = true := by
  have h := pRetryGo_allFail n (n + 1) 1 (by omega)
  unfold reconnect pRetry
  rw [h]
  exact ⟨rfl, rfl, rfl, rfl⟩

/-- C2 counterexample: with the source's default retry limit 10
(line 53) and all attempts failing, the supervision sequence performs
11 `connect()` attempts, not 10: p-retry's `retries` option counts
retries after the initial attempt. -/
theorem reconnect_attempt_count_counterexample :
    (reconnect defaultRetries (fun _ => false)).attempts = 11 ∧
    (reconnect defaultRetries (fun _ => false)).attempts ≠ defaultRetries := by
  constructor
  · decide
  · decide

/-! ### C3: at most one reconnect supervision loop at a time -/

theorem countLoop_append (l1 l2 : List HPc) :
    countLoop (l1 ++ l2) = countLoop l1 + countLoop l2 := by
  induction l1 with
  | nil => simp [countLoop]
  | cons h l ih => simp [countLoop, ih]; omega

theorem countLoop_setAt {l : List HPc} {i : Nat} {h v : HPc}
    (hg : getAt? l i = some h) :
    countLoop (setAt l i v) + (if h = HPc.hloop then 1 else 0) =
      countLoop l + (if v = HPc.hloop then 1 else 0) := by
  induction l generalizing i with
  | nil => simp [getAt?] at hg
  | cons x l ih =>
    cases i with
    | zero =>
      simp [getAt?] at hg
      subst hg
      simp [setAt, countLoop]
      omega
    | succ n =>
      simp only [getAt?] at hg
      have := ih hg
      simp only [setAt, countLoop]
      omega

theorem countLoop_pos_of_mem {l : List HPc} (hmem : HPc.hloop ∈ l) :
    1 ≤ countLoop l := by
  induction l with
  | nil => simp at hmem
  | cons x l ih =>
    rcases List.mem_cons.mp hmem with hx | hx
    · simp [countLoop, hx.symm]
    · have := ih hx
      simp only [countLoop]
      omega

/-- The single-flag discipline of lines 175/214/225: the
`isReconnecting` flag is set exactly while a supervision loop runs. -/
def RInv (s : RSys) : Prop :=
  (s.isReconnecting = true ∧ activeLoops s = 1) ∨
  (s.isReconnecting = false ∧ activeLoops s = 0)

theorem rstep_RInv {s : RSys} (h : RInv s) (ch : RChoice) : RInv (rstep s ch) := by
  cases ch with
  | spawn =>
    rcases h with ⟨hf, hl⟩ | ⟨hf, hl⟩
    · exact Or.inl ⟨hf, by simpa [activeLoops, rstep, countLoop_append, countLoop] using hl⟩
    · exact Or.inr ⟨hf, by simpa [activeLoops, rstep, countLoop_append, countLoop] using hl⟩
  | advance i =>
    cases hg : getAt? s.handlers i with
    | none => simpa [rstep, hg] using h
    | some hp =>
      cases hp with
      | h0 =>
        have hc := countLoop_setAt (v := HPc.h1) hg
        simp only [show (HPc.h0 = HPc.hloop) = False by simp,
          show (HPc.h1 = HPc.hloop) = False by simp, if_false] at hc
        rcases h with ⟨hf, hl⟩ | ⟨hf, hl⟩
        · refine Or.inl ⟨by simpa [rstep, hg] using hf, ?_⟩
          simp only [rstep, hg, activeLoops] at hl ⊢
          omega
        · refine Or.inr ⟨by simpa [rstep, hg] using hf, ?_⟩
          simp only [rstep, hg, activeLoops] at hl ⊢
          omega
      | h1 => simpa [rstep, hg] using h
      | hloop => simpa [rstep, hg] using h
      | hdone b => simpa [rstep, hg] using h
  | check i =>
    cases hg : getAt? s.handlers i with
    | none => simpa [rstep, hg] using h
    | some hp =>
      cases hp with
      | h0 => simpa [rstep, hg] using h
      | h1 =>
        by_cases hf : s.isReconnecting = true
        · -- reject-only branch: no loop started, flag unchanged
          have hc := countLoop_setAt (v := HPc.hdone false) hg
          simp only [show (HPc.h1 = HPc.hloop) = False by simp,
            show (HPc.hdone false = HPc.hloop) = False by simp, if_false] at hc
          rcases h with ⟨hf2, hl⟩ | ⟨hf2, hl⟩
          · refine Or.inl ⟨by simp [rstep, hg, hf], ?_⟩
            simp only [rstep, hg, hf, if_true, activeLoops] at hl ⊢
            omega
          · rw [hf2] at hf; simp at hf
        · -- start the supervision loop: flag set, one loop active
          have hc := countLoop_setAt (v := HPc.hloop) hg
          simp only [show (HPc.h1 = HPc.hloop) = False by simp,
            show (HPc.hloop = HPc.hloop) = True by simp, if_false, if_true] at hc
          rcases h with ⟨hf2, hl⟩ | ⟨hf2, hl⟩
          · exact absurd hf2 hf
          · refine Or.inl ⟨by simp [rstep, hg, hf2], ?_⟩
            simp only [rstep, hg, hf2, Bool.false_eq_true, if_false, activeLoops] at hl ⊢
            omega
      | hloop => simpa [rstep, hg] using h
      | hdone b => simpa [rstep, hg] using h
  | finish i =>
    cases hg : getAt? s.handlers i with
    | none => simpa [rstep, hg] using h
    | some hp =>
      cases hp with
      | h0 => simpa [rstep, hg] using h
      | h1 => simpa [rstep, hg] using h
      | hloop =>
        have hc := countLoop_setAt (v := HPc.hdone true) hg
        simp only [show (HPc.hloop = HPc.hloop) = True by simp,
          show (HPc.hdone true = HPc.hloop) = False by simp, if_false, if_true] at hc
        rcases h with ⟨hf2, hl⟩ | ⟨hf2, hl⟩
        · refine Or.inr ⟨by simp [rstep, hg], ?_⟩
          simp only [rstep, hg, activeLoops] at hl ⊢
          omega
        · -- a loop frame exists, so activeLoops cannot be 0
          exfalso
          have h1 := countLoop_pos_of_mem (getAt?_mem hg)
          simp only [activeLoops] at hl
          omega
      | hdone b => simpa [rstep, hg] using h

theorem rrun_RInv {s : RSys} (h : RInv s) (cs : List RChoice) : RInv (rrun s cs) := by
  induction cs generalizing s with
  | nil => exact h
  | cons ch cs ih => exact ih (rstep_RInv h ch)

/-- C3: for every schedule of transport-loss events, handler
progress and loop completions, at most one reconnect supervision loop
is in progress at any time; and a handler that finds `isReconnecting`
set (lines 214-221) only rejects — marking the disconnection as a
failure of the current attempt — leaving the flag and the running loop
untouched, spawning no second loop. -/
theorem single_reconnect_supervision_loop (cs : List RChoice) :
    activeLoops (rrun rInit cs) ≤ 1 ∧
    (∀ (s : RSys) (i : Nat), getAt? s.handlers i = some HPc.h1 →
      s.isReconnecting = true →
      (rstep s (RChoice.check i)).handlers = setAt s.handlers i (HPc.hdone false) ∧
      (rstep s (RChoice.check i)).isReconnecting = true ∧
      activeLoops (rstep s (RChoice.check i)) = activeLoops s) := by
  constructor
  · have h0 : RInv rInit := Or.inr ⟨rfl, rfl⟩
    have h : RInv (rrun rInit cs) := rrun_RInv h0 cs
    rcases h with ⟨_, hl⟩ | ⟨_, hl⟩ <;> omega
  · intro s i hg hf
    refine ⟨by simp [rstep, hg, hf], by simp [rstep, hg, hf], ?_⟩
    have hc := countLoop_setAt (v := HPc.hdone false) hg
    simp only [show (HPc.h1 = HPc.hloop) = False by simp,
      show (HPc.hdone false = HPc.hloop) = False by simp, if_false] at hc
    simp only [rstep, hg, hf, if_true, activeLoops]
    omega

/-- Concrete check of the h1-with-flag-set branch of C3. -/
theorem single_reconnect_supervision_loop_witness :
    getAt? (RSys.mk true [HPc.h1]).handlers 0 = some HPc.h1 ∧
    (rstep ⟨true, [HPc.h1]⟩ (RChoice.check 0)).handlers = [HPc.hdone false] ∧
    (rstep ⟨true, [HPc.h1]⟩ (RChoice.check 0)).isReconnecting = true := by
  refine ⟨by decide, ?_, ?_⟩
  · have h := (single_reconnect_supervision_loop []).2 ⟨true, [HPc.h1]⟩ 0 (by decide) rfl
    exact h.1
  · have h := (single_reconnect_supervision_loop []).2 ⟨true, [HPc.h1]⟩ 0 (by decide) rfl
    exact h.2.1

/-! ### C5: overlapping `disconnect()` calls -/

def overlappingDisconnectClient : Client :=
  { initialClient with ua := true, registered := true
                     , registeredPromise := some 0
                     , transportConnectedPromise := some 1 }

/-- Two overlapping `disconnect()` invocations on a registered client:
the second is issued while the first awaits the `unregistered` event. -/
def overlappingDisconnectSys : Sys :=
  { c := overlappingDisconnectClient
    tasks := [⟨.disconnect0, none⟩, ⟨.disconnect0, none⟩]
    resolved := []
    pendingUaDisconnect := []
    trace := []
    fresh := 2 }

/-- C5, evaluated on the failing input: `this.disconnectPromise` is
never assigned by any step of the system (the source declares the field
at line 50 and reads it at lines 112-114 but contains no assignment to
it), so the idempotence guard never fires: when a second `disconnect()`
arrives while the first is awaiting the `unregistered` event, both
invocations take the full teardown path and `ua.unregister()` is issued
twice — two teardown cycles, not one shared future. -/
theorem overlapping_disconnects_run_two_teardowns :
    (∀ (s : Sys) (ch : Choice),
      (step s ch).c.disconnectPromise = s.c.disconnectPromise) ∧
    countEv (run overlappingDisconnectSys
      [Choice.runTask 0, Choice.runTask 1]).trace Ev.uaUnregister = 2 :=
  ⟨step_disconnectPromise, by decide⟩

/-! ### C6: `invite()` and the registration future -/

def inflightClient : Client :=
  { initialClient with ua := true, registeredPromise := some 0 }

/-- C6 counterexample: on a client whose registration is still in
flight (`registeredPromise` exists but is unsettled), `invite()` does
not throw; it suspends on the registration future (line 159).  The
claim that an in-flight registration also fails with the
not-registered error is false. -/
theorem invite_inflight_no_throw_counterexample :
    invite0 inflightClient = InviteOutcome.awaitRegistered 0 ∧
    invite0 inflightClient ≠ InviteOutcome.throwNotRegistered :=
  ⟨rfl, by decide⟩

def demoOptions : OptionsObject :=
  ⟨some ⟨"u", "pw", "sip", "nm"⟩, some ⟨"wss", ["srv"]⟩, some 0, []⟩

/-- C6 (amended): `invite()` fails with the not-registered error
(`throw new Error('Register first!')`, lines 155-157) exactly when no
registration future exists — in particular on a freshly constructed
client, where no `connect()` has ever been issued; when a registration
is in flight, `invite()` instead waits for that future before creating
a session. -/
theorem invite_throws_iff_no_registration_future :
    (∀ c : Client,
      invite0 c = InviteOutcome.throwNotRegistered ↔ c.registeredPromise = none) ∧
    (∀ (o : OptionsObject) (r : Client × IWrappedUAOptions),
      construct o = Except.ok r →
      invite0 r.1 = InviteOutcome.throwNotRegistered) := by
  constructor
  · intro c
    cases h : c.registeredPromise <;> simp [invite0, h]
  · intro o r h
    unfold construct at h
    cases hc : configure o with
    | error e => rw [hc] at h; simp [Except.map] at h
    | ok v =>
      rw [hc] at h
      simp only [Except.map] at h
      cases h
      rfl

/-- Concrete instantiation of the construction clause of C6. -/
theorem invite_throws_iff_no_registration_future_witness :
    construct demoOptions =
      Except.ok (initialClient, ⟨"u", "pw", "sip", ["srv"], "wss", some 0⟩) ∧
    invite0 initialClient = InviteOutcome.throwNotRegistered :=
  ⟨rfl, invite_throws_iff_no_registration_future.2 demoOptions
    (initialClient, ⟨"u", "pw", "sip", ["srv"], "wss", some 0⟩) rfl⟩

/-! ### C7: one-shot termination cleanup -/

theorem countOcc_removeOnce {l : List String} {a : String} (h : a ∈ l) :
    countOcc (removeOnce l a) a + 1 = countOcc l a := by
  induction l with
  | nil => simp at h
  | cons x l ih =>
    by_cases hx : x = a
    · simp [removeOnce, countOcc, hx]
      omega
    · rcases List.mem_cons.mp h with hh | hh
      · exact absurd hh.symm hx
      · have := ih hh
        simp [removeOnce, countOcc, hx]
        omega

theorem not_mem_of_countOcc_zero {l : List String} {a : String}
    (h : countOcc l a = 0) : a ∉ l := by
  induction l with
  | nil => simp
  | cons x l ih =>
    intro hmem
    rcases List.mem_cons.mp hmem with hh | hh
    · simp [countOcc, hh.symm] at h
    · have hx : countOcc l a = 0 := by
        by_cases hxa : x = a
        · exfalso
          simp [countOcc, hxa] at h
        · simpa [countOcc, hxa] using h
      exact ih hx hh

theorem any_filter_eq_false (l : List (String × Nat)) (sid : String) :
    ((l.filter (fun e => !(e.1 == sid))).any (fun e => e.1 == sid)) = false := by
  induction l with
  | nil => rfl
  | cons x l ih =>
    by_cases hx : x.1 = sid
    · simp [List.filter_cons, hx, ih]
    · simp [List.filter_cons, List.any_cons, hx, ih]

theorem emitTerminated_not_armed {st : SessionRegistry} {sid : String}
    (h : sid ∉ st.armed) : emitTerminated st sid = st := by
  unfold emitTerminated
  rw [if_neg h]

/-- C7: the one-shot `terminated` cleanup listener (armed at line 169
for outbound sessions and line 250 for inbound ones) removes the
session from the registry exactly once: after the first `terminated`
event the registry no longer maps the session's id, and — because
`once` listeners are removed after firing — a duplicate `terminated`
emission from the engine changes nothing. -/
theorem session_termination_removes_once (st : SessionRegistry) (sid : String)
    (harm : sid ∈ st.armed) (hone : countOcc st.armed sid ≤ 1) :
    hasSession (emitTerminated st sid) sid = false ∧
    emitTerminated (emitTerminated st sid) sid = emitTerminated st sid := by
  have hrm : countOcc (removeOnce st.armed sid) sid = 0 := by
    have := countOcc_removeOnce harm
    omega
  have hnot : sid ∉ removeOnce st.armed sid := not_mem_of_countOcc_zero hrm
  have harmd : (emitTerminated st sid).armed = removeOnce st.armed sid := by
    unfold emitTerminated
    rw [if_pos harm]
  constructor
  · show hasSession (emitTerminated st sid) sid = false
    unfold emitTerminated
    rw [if_pos harm]
    exact any_filter_eq_false st.sessions sid
  · exact emitTerminated_not_armed (by rw [harmd]; exact hnot)

def sidA : String := "a"

def demoRegistry : SessionRegistry := addSession ⟨[], []⟩ sidA 1

/-- Concrete instantiation of C7: one session, one armed listener;
first termination removes it, the second is a no-op. -/
theorem session_termination_removes_once_witness :
    (sidA ∈ demoRegistry.armed ∧ countOcc demoRegistry.armed sidA ≤ 1) ∧
    (hasSession (emitTerminated demoRegistry sidA) sidA = false ∧
     emitTerminated (emitTerminated demoRegistry sidA) sidA =
       emitTerminated demoRegistry sidA) :=
  ⟨⟨by decide, by decide⟩,
   session_termination_removes_once demoRegistry sidA (by decide) (by decide)⟩

/-! ### C9: configuration never validates -/

def optionsWithUnrecognized : OptionsObject :=
  ⟨some ⟨"u", "pw", "sip", "nm"⟩, some ⟨"wss", ["srv"]⟩, some 0, ["bogusField"]⟩

/-- C9 counterexample: an options object carrying an unrecognized
property constructs successfully — no error of any kind is raised, so
in particular no ConfigurationError (the source defines none). -/
theorem configure_unrecognized_counterexample :
    construct optionsWithUnrecognized =
      Except.ok (initialClient, ⟨"u", "pw", "sip", ["srv"], "wss", some 0⟩) := rfl

/-- C9 (amended): `configure` (lines 272-295, called by the constructor
at line 58) performs no validation.  Construction succeeds exactly when
the `account` and `transport` objects are present; unrecognized
properties are silently ignored (destructuring never reads them); a
missing `account` or `transport` object fails with a generic JavaScript
TypeError from the property accesses at lines 277/284, not with a
ConfigurationError; a missing `media` value is accepted. -/
theorem configure_validation_behavior :
    (∀ o : OptionsObject,
      (∃ r, configure o = Except.ok r) ↔
        (o.account.isSome = true ∧ o.transport.isSome = true)) ∧
    (∀ (o : OptionsObject) (extra : List String),
      configure { o with extraFields := extra } = configure o) ∧
    (∀ o : OptionsObject, o.account = none ∨ o.transport = none →
      configure o = Except.error JsError.typeError) := by
  refine ⟨?_, ?_, ?_⟩
  · intro o
    cases ha : o.account <;> cases ht : o.transport <;> simp [configure, ha, ht]
  · intro o extra
    cases ha : o.account <;> cases ht : o.transport <;> simp [configure, ha, ht]
  · intro o h
    rcases h with h | h
    · cases ht : o.transport <;> simp [configure, h, ht]
    · cases ha : o.account <;> simp [configure, h, ha]

def optionsMissingAccount : OptionsObject :=
  ⟨none, some ⟨"wss", ["srv"]⟩, some 0, []⟩

/-- Concrete instantiation of the missing-account clause of C9. -/
theorem configure_validation_behavior_witness :
    (optionsMissingAccount.account = none ∨
      optionsMissingAccount.transport = none) ∧
    configure optionsMissingAccount = Except.error JsError.typeError :=
  ⟨Or.inl rfl,
   configure_validation_behavior.2.2 optionsMissingAccount (Or.inl rfl)⟩

/-! ### C10: `disconnect()` never mutates the session registry -/

theorem runSeg_tasks (s : Sys) (t : Frame) :
    (runSeg s t).1.tasks = s.tasks := by
  cases hk : t.k <;> simp only [runSeg, hk] <;> (repeat' split) <;> rfl

theorem run_sessions (s : Sys) (cs : List Choice) :
    (run s cs).c.sessions = s.c.sessions := by
  induction cs generalizing s with
  | nil => rfl
  | cons ch cs ih =>
    have h1 : run s (ch :: cs) = run (step s ch) cs := rfl
    rw [h1, ih (step s ch), step_sessions]

/-- State of the single `disconnect()` invocation: once past line 120
the registration future stays cleared, and a normal return implies the
engine reference and both futures are gone. -/
def DFrame10 (s : Sys) (t : Frame) : Prop :=
  t.k = TaskK.disconnect0 ∨
  ((t.k = TaskK.disconnect1 ∨ t.k = TaskK.disconnect2) ∧
    s.c.registeredPromise = none) ∨
  (∃ r, t.k = TaskK.done r ∧
    (r = TRes.unit →
      s.c.ua = false ∧ s.c.registeredPromise = none ∧
      s.c.unregisteredPromise = none))

def Inv10 (s : Sys) : Prop := ∃ t, s.tasks = [t] ∧ DFrame10 s t

theorem step_Inv10 {s : Sys} (h : Inv10 s) (ch : Choice) : Inv10 (step s ch) := by
  rcases h with ⟨t, htasks, hf⟩
  cases ch with
  | runTask i =>
    cases i with
    | succ n =>
      have hg : getAt? s.tasks (n + 1) = none := by rw [htasks]; rfl
      simp only [step, hg]
      exact ⟨t, htasks, hf⟩
    | zero =>
      have hg : getAt? s.tasks 0 = some t := by rw [htasks]; rfl
      by_cases hr : runnable s t
      · simp only [step, hg, hr, if_true]
        rcases t with ⟨k, b⟩
        rcases hf with hf | ⟨hf | hf, hreg⟩ | ⟨r, hf, himp⟩
        · -- disconnect0 (lines 111-136)
          simp only at hf
          subst hf
          cases hd : s.c.disconnectPromise with
          | some d =>
            simp only [runSeg, hd, runSeg_tasks, htasks]
            exact ⟨_, rfl, Or.inr (Or.inr ⟨_, rfl, by intro hu; cases hu⟩)⟩
          | none =>
            cases hua : s.c.ua with
            | false =>
              simp only [runSeg, hd, hua, Bool.false_eq_true, if_false,
                runSeg_tasks, htasks]
              exact ⟨_, rfl, Or.inr (Or.inr ⟨_, rfl, by intro hu; cases hu⟩)⟩
            | true =>
              cases hrg : s.c.registered with
              | true =>
                simp only [runSeg, hd, hua, hrg, if_true, runSeg_tasks, htasks]
                exact ⟨_, rfl, Or.inr (Or.inl ⟨Or.inl rfl, rfl⟩)⟩
              | false =>
                simp only [runSeg, hd, hua, hrg, Bool.false_eq_true, if_false,
                  if_true, runSeg_tasks, htasks]
                exact ⟨_, rfl, Or.inr (Or.inl ⟨Or.inl rfl, rfl⟩)⟩
        · -- disconnect1 (lines 139-141)
          simp only at hf
          subst hf
          cases hua : s.c.ua with
          | true =>
            simp only [runSeg, hua, if_true, runSeg_tasks, htasks]
            exact ⟨_, rfl, Or.inr (Or.inl ⟨Or.inr rfl, hreg⟩)⟩
          | false =>
            simp only [runSeg, hua, Bool.false_eq_true, if_false,
              runSeg_tasks, htasks]
            exact ⟨_, rfl, Or.inr (Or.inr ⟨_, rfl, by intro hu; cases hu⟩)⟩
        · -- disconnect2 (lines 143-150)
          simp only at hf
          subst hf
          cases hua : s.c.ua with
          | true =>
            simp only [runSeg, hua, if_true, runSeg_tasks, htasks]
            exact ⟨_, rfl, Or.inr (Or.inr ⟨_, rfl, fun _ => ⟨rfl, hreg, rfl⟩⟩)⟩
          | false =>
            simp only [runSeg, hua, Bool.false_eq_true, if_false,
              runSeg_tasks, htasks]
            exact ⟨_, rfl, Or.inr (Or.inr ⟨_, rfl, by intro hu; cases hu⟩)⟩
        · -- finished invocation: running it again changes nothing
          simp only at hf
          subst hf
          simp only [runSeg, runSeg_tasks, htasks]
          exact ⟨_, rfl, Or.inr (Or.inr ⟨r, rfl, himp⟩)⟩
      · simp only [step, hg, hr, if_false]
        exact ⟨t, htasks, hf⟩
  | fireRegistered =>
    refine ⟨t, ?_, ?_⟩ <;> simp only [step, fireRegistered] <;> split <;>
      simp_all [DFrame10]
  | fireRegistrationFailed =>
    refine ⟨t, ?_, ?_⟩ <;> simp only [step, fireRegistrationFailed] <;> split <;>
      simp_all [DFrame10]
  | fireUnregistered =>
    refine ⟨t, ?_, ?_⟩ <;> simp only [step, fireUnregistered] <;> split <;>
      simp_all [DFrame10]
  | fireTransportConnected =>
    refine ⟨t, ?_, ?_⟩ <;> simp only [step, fireTransportConnected] <;>
      (repeat' split) <;> simp_all [DFrame10]
  | fireUaDisconnectDone i =>
    refine ⟨t, ?_, ?_⟩ <;> simp only [step, fireUaDisconnectDone] <;>
      (repeat' split) <;> simp_all [DFrame10]

theorem run_Inv10 {s : Sys} (h : Inv10 s) (cs : List Choice) :
    Inv10 (run s cs) := by
  induction cs generalizing s with
  | nil => exact h
  | cons ch cs ih => exact ih (step_Inv10 h ch)

/-- C10: `disconnect()` never mutates the session registry — for every
schedule of the single invocation and engine events, the registry after
the run is exactly the registry before; and a normal return means the
registration future was cleared (line 120), the unregistered future
deleted and the engine reference released (lines 145-149), without
removing or terminating any session. -/
theorem disconnect_preserves_sessions (c0 : Client) (f0 : Nat) (cs : List Choice) :
    (run (disconnectSys c0 f0) cs).c.sessions = c0.sessions ∧
    (TRes.unit ∈ doneResults (run (disconnectSys c0 f0) cs) →
      (run (disconnectSys c0 f0) cs).c.ua = false ∧
      (run (disconnectSys c0 f0) cs).c.registeredPromise = none ∧
      (run (disconnectSys c0 f0) cs).c.unregisteredPromise = none) := by
  constructor
  · exact run_sessions (disconnectSys c0 f0) cs
  · intro hdone
    have hinv : Inv10 (run (disconnectSys c0 f0) cs) :=
      run_Inv10 ⟨⟨.disconnect0, none⟩, rfl, Or.inl rfl⟩ cs
    rcases hinv with ⟨t, htasks, hf⟩
    rcases mem_doneResults.mp hdone with ⟨t', ht', hk⟩
    rw [htasks] at ht'
    have ht2 : t' = t := by simpa using ht'
    subst ht2
    rcases hf with hf | ⟨hf | hf, _⟩ | ⟨r, hf, himp⟩
    · rw [hf] at hk; cases hk
    · rw [hf] at hk; cases hk
    · rw [hf] at hk; cases hk
    · rw [hf] at hk
      cases hk
      exact himp rfl

def demoDisconnectClient : Client :=
  { initialClient with ua := true, sessions := [(sidA, 5)] }

/-- Concrete instantiation of C10: an unregistered client with one live
session disconnects normally; the registry is untouched. -/
theorem disconnect_preserves_sessions_witness :
    (run (disconnectSys demoDisconnectClient 7)
      [Choice.runTask 0, Choice.runTask 0, Choice.fireUaDisconnectDone 0,
       Choice.runTask 0]).c.sessions = demoDisconnectClient.sessions ∧
    TRes.unit ∈ doneResults (run (disconnectSys demoDisconnectClient 7)
      [Choice.runTask 0, Choice.runTask 0, Choice.fireUaDisconnectDone 0,
       Choice.runTask 0]) ∧
    (run (disconnectSys demoDisconnectClient 7)
      [Choice.runTask 0, Choice.runTask 0, Choice.fireUaDisconnectDone 0,
       Choice.runTask 0]).c.ua = false :=
  ⟨(disconnect_preserves_sessions demoDisconnectClient 7
      [Choice.runTask 0, Choice.runTask 0, Choice.fireUaDisconnectDone 0,
       Choice.runTask 0]).1,
   by decide,
   ((disconnect_preserves_sessions demoDisconnectClient 7
      [Choice.runTask 0, Choice.runTask 0, Choice.fireUaDisconnectDone 0,
       Choice.runTask 0]).2 (by decide)).1⟩

/-! ### C4: unregistration strictly precedes transport teardown -/

def isUaDisconnectCmd : Ev → Bool
  | .uaDisconnectCmd => true
  | _ => false

def isEvUnregistered : Ev → Bool
  | .evUnregistered => true
  | _ => false

theorem evBefore_append_nontrigger {tr evs : List Ev} {trig req : Ev → Bool}
    (h1 : evBefore tr trig req) (h2 : ∀ e ∈ evs, trig e = false) :
    evBefore (tr ++ evs) trig req :=
  evBefore_append h1 (fun e he ht => absurd ht (by rw [h2 e he]; simp))

theorem optLt_mono {o : Option Nat} {a b : Nat} (h : optLt o a) (hab : a ≤ b) :
    optLt o b := by
  cases o with
  | none => trivial
  | some x => exact Nat.lt_of_lt_of_le h hab

/-- Per-segment state of a single `disconnect()` on a client that is
registered when the call is made. -/
def TFrame (s : Sys) (t : Frame) : Prop :=
  (t.k = TaskK.disconnect0 ∧ t.blockedOn = none ∧ s.c.unregOnce = [] ∧
    s.c.registered = true ∧ Ev.uaDisconnectCmd ∉ s.trace ∧
    s.pendingUaDisconnect = []) ∨
  (∃ q, t.k = TaskK.disconnect1 ∧ t.blockedOn = some q ∧
    (∀ x ∈ s.c.unregOnce, x = q) ∧
    (lookupP s.resolved q ≠ none → Ev.evUnregistered ∈ s.trace) ∧
    (∀ x, s.c.transportConnectedPromise = some x → x ≠ q) ∧
    s.pendingUaDisconnect = [] ∧
    Ev.uaDisconnectCmd ∉ s.trace ∧ Ev.uaUnregister ∈ s.trace) ∨
  (t.k = TaskK.disconnect2 ∧ Ev.uaUnregister ∈ s.trace) ∨
  (∃ r, t.k = TaskK.done r ∧ (r = TRes.unit → Ev.uaUnregister ∈ s.trace))

/-- Invariant for a single `disconnect()` on a registered client: no
`connect()` is in flight, so no `registered`/`registrationFailed`
listener is armed; ids are allocated below the fresh counter; the
teardown command appears in the trace only after the `unregistered`
engine event. -/
structure InvT (s : Sys) : Prop where
  regOnceNil : s.c.regOnce = []
  regFailNil : s.c.regFailOnce = []
  tcpLt : optLt s.c.transportConnectedPromise s.fresh
  resolvedLt : ∀ x v, lookupP s.resolved x = some v → x < s.fresh
  pendingLt : ∀ x ∈ s.pendingUaDisconnect, x < s.fresh
  unregLt : ∀ x ∈ s.c.unregOnce, x < s.fresh
  order : evBefore s.trace isUaDisconnectCmd isEvUnregistered
  frame : ∃ t, s.tasks = [t] ∧ TFrame s t

theorem step_InvT {s : Sys} (h : InvT s) (ch : Choice) : InvT (step s ch) := by
  obtain ⟨hro, hrf, htcp, hres, hpend, hunlt, horder, t, htasks, hframe⟩ := h
  cases ch with
  | runTask i =>
    cases i with
    | succ n =>
      have hg : getAt? s.tasks (n + 1) = none := by rw [htasks]; rfl
      simp only [step, hg]
      exact ⟨hro, hrf, htcp, hres, hpend, hunlt, horder, t, htasks, hframe⟩
    | zero =>
      have hg : getAt? s.tasks 0 = some t := by rw [htasks]; rfl
      by_cases hr : runnable s t
      · simp only [step, hg, hr, if_true]
        rcases t with ⟨k, b⟩
        rcases hframe with ⟨hk, hb, hun, hreg, hnd, hpn⟩ |
            ⟨q, hk, hb, hun, hqres, hqtcp, hpn, hnd, hium⟩ |
            ⟨hk, hium⟩ | ⟨r, hk, himp⟩
        · -- disconnect0, registered client (lines 111-136)
          simp only at hk
          subst hk
          cases hd : s.c.disconnectPromise with
          | some d =>
            simp only [runSeg, hd, runSeg_tasks, htasks]
            exact ⟨hro, hrf, htcp, hres, hpend, hunlt, horder, _, rfl,
              Or.inr (Or.inr (Or.inr ⟨_, rfl, by intro hu; cases hu⟩))⟩
          | none =>
            cases hua : s.c.ua with
            | false =>
              simp only [runSeg, hd, hua, Bool.false_eq_true, if_false,
                runSeg_tasks, htasks]
              exact ⟨hro, hrf, htcp, hres, hpend, hunlt, horder, _, rfl,
                Or.inr (Or.inr (Or.inr ⟨_, rfl, by intro hu; cases hu⟩))⟩
            | true =>
              simp only [runSeg, hd, hua, hreg, if_true, runSeg_tasks, htasks]
              refine ⟨hro, hrf, optLt_mono htcp (Nat.le_succ _), ?_, ?_, ?_, ?_,
                _, rfl, Or.inr (Or.inl ⟨s.fresh, rfl, rfl, ?_, ?_, ?_, hpn, ?_, ?_⟩)⟩
              · intro x v hx
                exact Nat.lt_succ_of_lt (hres x v hx)
              · intro x hx
                rw [hpn] at hx
                simp at hx
              · intro x hx
                rw [hun] at hx
                simp at hx
                rw [hx]
                exact Nat.lt_succ_self _
              · exact evBefore_append_nontrigger horder (by
                  intro e he
                  rcases List.mem_cons.mp he with he | he
                  · rw [he]; rfl
                  · rcases List.mem_cons.mp he with he | he
                    · rw [he]; rfl
                    · simp at he)
              · intro x hx
                rw [hun] at hx
                simp at hx
                rw [hx]
              · intro hlk
                exfalso
                cases hl : lookupP s.resolved s.fresh with
                | none => exact hlk hl
                | some v => exact Nat.lt_irrefl _ (hres _ _ hl)
              · intro x hx hxq
                rw [hx] at htcp
                rw [hxq] at htcp
                exact Nat.lt_irrefl _ htcp
              · intro hmem
                rcases List.mem_append.mp hmem with hm | hm
                · exact hnd hm
                · simp at hm
              · exact List.mem_append_right _ (by simp)
        · -- disconnect1, awaiting the unregistered event (lines 139-141)
          simp only at hk hb
          subst hk
          subst hb
          have hresq : Ev.evUnregistered ∈ s.trace := by
            apply hqres
            simp only [runnable, isResolved] at hr
            intro hnone
            rw [hnone] at hr
            simp at hr
          cases hua : s.c.ua with
          | true =>
            simp only [runSeg, hua, if_true, runSeg_tasks, htasks]
            refine ⟨hro, hrf, optLt_mono htcp (Nat.le_succ _), ?_, ?_, ?_, ?_,
              _, rfl, Or.inr (Or.inr (Or.inl ⟨rfl, List.mem_append_left _ hium⟩))⟩
            · intro x v hx
              exact Nat.lt_succ_of_lt (hres x v hx)
            · intro x hx
              rcases List.mem_append.mp hx with hm | hm
              · exact Nat.lt_succ_of_lt (hpend x hm)
              · simp at hm
                rw [hm]
                exact Nat.lt_succ_self _
            · intro x hx
              exact Nat.lt_succ_of_lt (hunlt x hx)
            · exact evBefore_append horder (by
                intro e he htrig
                exact ⟨Ev.evUnregistered, hresq, rfl⟩)
          | false =>
            simp only [runSeg, hua, Bool.false_eq_true, if_false,
              runSeg_tasks, htasks]
            exact ⟨hro, hrf, htcp, hres, hpend, hunlt, horder, _, rfl,
              Or.inr (Or.inr (Or.inr ⟨_, rfl, by intro hu; cases hu⟩))⟩
        · -- disconnect2, final cleanup (lines 143-150)
          simp only at hk
          subst hk
          cases hua : s.c.ua with
          | true =>
            simp only [runSeg, hua, if_true, runSeg_tasks, htasks]
            refine ⟨rfl, rfl, htcp, hres, hpend, ?_, ?_,
              _, rfl, Or.inr (Or.inr (Or.inr ⟨_, rfl,
                fun _ => List.mem_append_left _ hium⟩))⟩
            · intro x hx
              simp at hx
            · exact evBefore_append_nontrigger horder (by
                intro e he
                simp at he
                rw [he]
                rfl)
          | false =>
            simp only [runSeg, hua, Bool.false_eq_true, if_false,
              runSeg_tasks, htasks]
            exact ⟨hro, hrf, htcp, hres, hpend, hunlt, horder, _, rfl,
              Or.inr (Or.inr (Or.inr ⟨_, rfl, by intro hu; cases hu⟩))⟩
        · -- finished invocation
          simp only at hk
          subst hk
          simp only [runSeg, runSeg_tasks, htasks]
          exact ⟨hro, hrf, htcp, hres, hpend, hunlt, horder, _, rfl,
            Or.inr (Or.inr (Or.inr ⟨r, rfl, himp⟩))⟩
      · simp only [step, hg, hr, if_false]
        exact ⟨hro, hrf, htcp, hres, hpend, hunlt, horder, t, htasks, hframe⟩
  | fireRegistered =>
    have hguard : (s.c.ua && !s.c.regOnce.isEmpty) = false := by
      rw [hro]
      simp
    simp only [step, fireRegistered, hguard, Bool.false_eq_true, if_false]
    exact ⟨hro, hrf, htcp, hres, hpend, hunlt, horder, t, htasks, hframe⟩
  | fireRegistrationFailed =>
    have hguard : (s.c.ua && !s.c.regFailOnce.isEmpty) = false := by
      rw [hrf]
      simp
    simp only [step, fireRegistrationFailed, hguard, Bool.false_eq_true, if_false]
    exact ⟨hro, hrf, htcp, hres, hpend, hunlt, horder, t, htasks, hframe⟩
  | fireUnregistered =>
    by_cases hguard : (s.c.ua && !s.c.unregOnce.isEmpty) = true
    · simp only [step, fireUnregistered, hguard, if_true]
      refine ⟨hro, hrf, htcp, ?_, hpend, ?_, ?_, t, htasks, ?_⟩
      · intro x v hx
        rcases lookupP_resolveAll hx with hx | ⟨hx, _⟩
        · exact hres x v hx
        · exact hunlt x hx
      · intro x hx
        simp at hx
      · exact evBefore_append_nontrigger horder (by
          intro e he
          simp at he
          rw [he]
          rfl)
      · rcases hframe with ⟨hk, hb, hun, hreg, hnd, hpn⟩ |
            ⟨q, hk, hb, hun, hqres, hqtcp, hpn, hnd, hium⟩ |
            ⟨hk, hium⟩ | ⟨r, hk, himp⟩
        · -- impossible: no unregistered listener is armed yet
          exfalso
          rw [hun] at hguard
          simp at hguard
        · exact Or.inr (Or.inl ⟨q, hk, hb, by intro x hx; simp at hx,
            fun _ => List.mem_append_right _ (by simp),
            hqtcp, hpn, (by
              intro hmem
              rcases List.mem_append.mp hmem with hm | hm
              · exact hnd hm
              · simp at hm),
            List.mem_append_left _ hium⟩)
        · exact Or.inr (Or.inr (Or.inl ⟨hk, List.mem_append_left _ hium⟩))
        · exact Or.inr (Or.inr (Or.inr ⟨r, hk,
            fun hu => List.mem_append_left _ (himp hu)⟩))
    · simp only [step, fireUnregistered, eq_self_iff_true]
      rw [if_neg hguard]
      exact ⟨hro, hrf, htcp, hres, hpend, hunlt, horder, t, htasks, hframe⟩
  | fireTransportConnected =>
    by_cases hua : s.c.ua = true
    · cases htp : s.c.transportConnectedPromise with
      | none =>
        simp only [step, fireTransportConnected, hua, if_true, htp]
        exact ⟨hro, hrf, htcp, hres, hpend, hunlt, horder, t, htasks, hframe⟩
      | some tp =>
        simp only [step, fireTransportConnected, hua, if_true, htp]
        refine ⟨hro, hrf, htcp, ?_, hpend, hunlt, ?_, t, htasks, ?_⟩
        · intro x v hx
          rcases lookupP_resolveP hx with hx | ⟨hx, _⟩
          · exact hres x v hx
          · rw [hx]
            rw [htp] at htcp
            exact htcp
        · exact evBefore_append_nontrigger horder (by
            intro e he
            simp at he
            rw [he]
            rfl)
        · rcases hframe with ⟨hk, hb, hun, hreg, hnd, hpn⟩ |
              ⟨q, hk, hb, hun, hqres, hqtcp, hpn, hnd, hium⟩ |
              ⟨hk, hium⟩ | ⟨r, hk, himp⟩
          · exact Or.inl ⟨hk, hb, hun, hreg, (by
              intro hmem
              rcases List.mem_append.mp hmem with hm | hm
              · exact hnd hm
              · simp at hm), hpn⟩
          · refine Or.inr (Or.inl ⟨q, hk, hb, hun, ?_, hqtcp, hpn, (by
              intro hmem
              rcases List.mem_append.mp hmem with hm | hm
              · exact hnd hm
              · simp at hm),
              List.mem_append_left _ hium⟩)
            intro hlk
            have hne : q ≠ tp := fun hqe => (hqtcp tp htp) (hqe ▸ rfl)
            rw [lookupP_resolveP_ne hne] at hlk
            exact List.mem_append_left _ (hqres hlk)
          · exact Or.inr (Or.inr (Or.inl ⟨hk, List.mem_append_left _ hium⟩))
          · exact Or.inr (Or.inr (Or.inr ⟨r, hk,
              fun hu => List.mem_append_left _ (himp hu)⟩))
    · have hua2 : s.c.ua = false := by
        cases hv : s.c.ua
        · rfl
        · exact absurd hv hua
      simp only [step, fireTransportConnected, hua2, Bool.false_eq_true, if_false]
      exact ⟨hro, hrf, htcp, hres, hpend, hunlt, horder, t, htasks, hframe⟩
  | fireUaDisconnectDone i =>
    cases hgp : getAt? s.pendingUaDisconnect i with
    | none =>
      simp only [step, fireUaDisconnectDone, hgp]
      exact ⟨hro, hrf, htcp, hres, hpend, hunlt, horder, t, htasks, hframe⟩
    | some d =>
      simp only [step, fireUaDisconnectDone, hgp]
      refine ⟨hro, hrf, htcp, ?_, hpend, hunlt, horder, t, htasks, ?_⟩
      · intro x v hx
        rcases lookupP_resolveP hx with hx | ⟨hx, _⟩
        · exact hres x v hx
        · rw [hx]
          exact hpend d (getAt?_mem hgp)
      · rcases hframe with ⟨hk, hb, hun, hreg, hnd, hpn⟩ |
            ⟨q, hk, hb, hun, hqres, hqtcp, hpn, hnd, hium⟩ |
            ⟨hk, hium⟩ | ⟨r, hk, himp⟩
        · exact Or.inl ⟨hk, hb, hun, hreg, hnd, hpn⟩
        · refine Or.inr (Or.inl ⟨q, hk, hb, hun, ?_, hqtcp, hpn, hnd, hium⟩)
          intro hlk
          have hdm : d ∈ s.pendingUaDisconnect := getAt?_mem hgp
          rw [hpn] at hdm
          simp at hdm
        · exact Or.inr (Or.inr (Or.inl ⟨hk, hium⟩))
        · exact Or.inr (Or.inr (Or.inr ⟨r, hk, himp⟩))

/-- Invariant for a single `disconnect()` on an unregistered client:
the `if (this.registered)` branch (lines 122-136) is never taken, so no
`ua.unregister()` command is ever issued. -/
structure InvF (s : Sys) : Prop where
  regOnceNil : s.c.regOnce = []
  regFailNil : s.c.regFailOnce = []
  unregNil : s.c.unregOnce = []
  regFalse : s.c.registered = false
  noUnregCmd : Ev.uaUnregister ∉ s.trace
  frame : ∃ t, s.tasks = [t] ∧
    (t.k = TaskK.disconnect0 ∨ t.k = TaskK.disconnect1 ∨
     t.k = TaskK.disconnect2 ∨ ∃ r, t.k = TaskK.done r)

theorem step_InvF {s : Sys} (h : InvF s) (ch : Choice) : InvF (step s ch) := by
  obtain ⟨hro, hrf, hun, hregf, hnu, t, htasks, hframe⟩ := h
  cases ch with
  | runTask i =>
    cases i with
    | succ n =>
      have hg : getAt? s.tasks (n + 1) = none := by rw [htasks]; rfl
      simp only [step, hg]
      exact ⟨hro, hrf, hun, hregf, hnu, t, htasks, hframe⟩
    | zero =>
      have hg : getAt? s.tasks 0 = some t := by rw [htasks]; rfl
      by_cases hr : runnable s t
      · simp only [step, hg, hr, if_true]
        rcases t with ⟨k, b⟩
        rcases hframe with hk | hk | hk | ⟨r, hk⟩
        · -- disconnect0: the registered branch is skipped
          simp only at hk
          subst hk
          cases hd : s.c.disconnectPromise with
          | some d =>
            simp only [runSeg, hd, runSeg_tasks, htasks]
            exact ⟨hro, hrf, hun, hregf, hnu, _, rfl,
              Or.inr (Or.inr (Or.inr ⟨_, rfl⟩))⟩
          | none =>
            cases hua : s.c.ua with
            | false =>
              simp only [runSeg, hd, hua, Bool.false_eq_true, if_false,
                runSeg_tasks, htasks]
              exact ⟨hro, hrf, hun, hregf, hnu, _, rfl,
                Or.inr (Or.inr (Or.inr ⟨_, rfl⟩))⟩
            | true =>
              simp only [runSeg, hd, hua, hregf, Bool.false_eq_true, if_false,
                if_true, runSeg_tasks, htasks]
              exact ⟨hro, hrf, hun, rfl, hnu, _, rfl, Or.inr (Or.inl rfl)⟩
        · -- disconnect1: issues the teardown, never an unregister
          simp only at hk
          subst hk
          cases hua : s.c.ua with
          | true =>
            simp only [runSeg, hua, if_true, runSeg_tasks, htasks]
            refine ⟨hro, hrf, hun, hregf, ?_, _, rfl, Or.inr (Or.inr (Or.inl rfl))⟩
            intro hmem
            rcases List.mem_append.mp hmem with hm | hm
            · exact hnu hm
            · simp at hm
          | false =>
            simp only [runSeg, hua, Bool.false_eq_true, if_false,
              runSeg_tasks, htasks]
            exact ⟨hro, hrf, hun, hregf, hnu, _, rfl,
              Or.inr (Or.inr (Or.inr ⟨_, rfl⟩))⟩
        · -- disconnect2
          simp only at hk
          subst hk
          cases hua : s.c.ua with
          | true =>
            simp only [runSeg, hua, if_true, runSeg_tasks, htasks]
            refine ⟨rfl, rfl, rfl, hregf, ?_, _, rfl,
              Or.inr (Or.inr (Or.inr ⟨_, rfl⟩))⟩
            intro hmem
            rcases List.mem_append.mp hmem with hm | hm
            · exact hnu hm
            · simp at hm
          | false =>
            simp only [runSeg, hua, Bool.false_eq_true, if_false,
              runSeg_tasks, htasks]
            exact ⟨hro, hrf, hun, hregf, hnu, _, rfl,
              Or.inr (Or.inr (Or.inr ⟨_, rfl⟩))⟩
        · -- finished invocation
          simp only at hk
          subst hk
          simp only [runSeg, runSeg_tasks, htasks]
          exact ⟨hro, hrf, hun, hregf, hnu, _, rfl,
            Or.inr (Or.inr (Or.inr ⟨r, rfl⟩))⟩
      · simp only [step, hg, hr, if_false]
        exact ⟨hro, hrf, hun, hregf, hnu, t, htasks, hframe⟩
  | fireRegistered =>
    have hguard : (s.c.ua && !s.c.regOnce.isEmpty) = false := by
      rw [hro]
      simp
    simp only [step, fireRegistered, hguard, Bool.false_eq_true, if_false]
    exact ⟨hro, hrf, hun, hregf, hnu, t, htasks, hframe⟩
  | fireRegistrationFailed =>
    have hguard : (s.c.ua && !s.c.regFailOnce.isEmpty) = false := by
      rw [hrf]
      simp
    simp only [step, fireRegistrationFailed, hguard, Bool.false_eq_true, if_false]
    exact ⟨hro, hrf, hun, hregf, hnu, t, htasks, hframe⟩
  | fireUnregistered =>
    have hguard : (s.c.ua && !s.c.unregOnce.isEmpty) = false := by
      rw [hun]
      simp
    simp only [step, fireUnregistered, hguard, Bool.false_eq_true, if_false]
    exact ⟨hro, hrf, hun, hregf, hnu, t, htasks, hframe⟩
  | fireTransportConnected =>
    by_cases hua : s.c.ua = true
    · cases htp : s.c.transportConnectedPromise with
      | none =>
        simp only [step, fireTransportConnected, hua, if_true, htp]
        exact ⟨hro, hrf, hun, hregf, hnu, t, htasks, hframe⟩
      | some tp =>
        simp only [step, fireTransportConnected, hua, if_true, htp]
        refine ⟨hro, hrf, hun, hregf, ?_, t, htasks, hframe⟩
        intro hmem
        rcases List.mem_append.mp hmem with hm | hm
        · exact hnu hm
        · simp at hm
    · have hua2 : s.c.ua = false := by
        cases hv : s.c.ua
        · rfl
        · exact absurd hv hua
      simp only [step, fireTransportConnected, hua2, Bool.false_eq_true, if_false]
      exact ⟨hro, hrf, hun, hregf, hnu, t, htasks, hframe⟩
  | fireUaDisconnectDone i =>
    cases hgp : getAt? s.pendingUaDisconnect i with
    | none =>
      simp only [step, fireUaDisconnectDone, hgp]
      exact ⟨hro, hrf, hun, hregf, hnu, t, htasks, hframe⟩
    | some d =>
      simp only [step, fireUaDisconnectDone, hgp]
      exact ⟨hro, hrf, hun, hregf, hnu, t, htasks, hframe⟩

theorem run_InvT {s : Sys} (h : InvT s) (cs : List Choice) : InvT (run s cs) := by
  induction cs generalizing s with
  | nil => exact h
  | cons ch cs ih => exact ih (step_InvT h ch)

theorem run_InvF {s : Sys} (h : InvF s) (cs : List Choice) : InvF (run s cs) := by
  induction cs generalizing s with
  | nil => exact h
  | cons ch cs ih => exact ih (step_InvF h ch)

/-- C4: for every schedule of the single `disconnect()` invocation and
of engine events: if the client is registered, the transport-teardown
command (`await this.ua.disconnect()`, line 141) appears in the trace
only strictly after the `unregistered` engine event, and a normal
return implies `ua.unregister()` was issued; if the client is not
registered, no `ua.unregister()` command ever appears. -/
theorem disconnect_unregisters_before_teardown (c0 : Client) (f0 : Nat)
    (cs : List Choice) (htcp : optLt c0.transportConnectedPromise f0) :
    (c0.registered = true →
      evBefore (run (disconnectSys c0 f0) cs).trace
        isUaDisconnectCmd isEvUnregistered ∧
      (TRes.unit ∈ doneResults (run (disconnectSys c0 f0) cs) →
        Ev.uaUnregister ∈ (run (disconnectSys c0 f0) cs).trace)) ∧
    (c0.registered = false →
      Ev.uaUnregister ∉ (run (disconnectSys c0 f0) cs).trace) := by
  constructor
  · intro hreg
    have h0 : InvT (disconnectSys c0 f0) := by
      refine ⟨rfl, rfl, htcp, ?_, ?_, ?_, evBefore_nil,
        ⟨.disconnect0, none⟩, rfl, Or.inl ⟨rfl, rfl, rfl, hreg,
          by simp [disconnectSys], rfl⟩⟩
      · intro x v hx
        simp [lookupP] at hx
      · intro x hx
        simp [disconnectSys] at hx
      · intro x hx
        simp [disconnectSys] at hx
    have hfin := run_InvT h0 cs
    obtain ⟨_, _, _, _, _, _, horder, t, htasks, hframe⟩ := hfin
    refine ⟨horder, ?_⟩
    intro hdone
    rcases mem_doneResults.mp hdone with ⟨t', ht', hk⟩
    rw [htasks] at ht'
    have ht2 : t' = t := by simpa using ht'
    subst ht2
    rcases hframe with ⟨hk2, _⟩ | ⟨q, hk2, _⟩ | ⟨hk2, _⟩ | ⟨r, hk2, himp⟩
    · rw [hk2] at hk; cases hk
    · rw [hk2] at hk; cases hk
    · rw [hk2] at hk; cases hk
    · rw [hk2] at hk
      cases hk
      exact himp rfl
  · intro hreg
    have h0 : InvF (disconnectSys c0 f0) := by
      refine ⟨rfl, rfl, rfl, hreg, by simp [disconnectSys],
        ⟨.disconnect0, none⟩, rfl, Or.inl rfl⟩
    exact (run_InvF h0 cs).noUnregCmd

def c4DemoClient : Client :=
  { initialClient with ua := true, registered := true
                     , transportConnectedPromise := some 1 }

def c4DemoChoices : List Choice :=
  [Choice.runTask 0, Choice.fireUnregistered, Choice.runTask 0,
   Choice.fireUaDisconnectDone 0, Choice.runTask 0]

/-- Concrete instantiation of C4: a registered client disconnects to
completion; the run issues the unregister command and the teardown
command appears only after the unregistered event. -/
theorem disconnect_unregisters_before_teardown_witness :
    optLt c4DemoClient.transportConnectedPromise 3 ∧
    c4DemoClient.registered = true ∧
    TRes.unit ∈ doneResults (run (disconnectSys c4DemoClient 3) c4DemoChoices) ∧
    Ev.uaUnregister ∈ (run (disconnectSys c4DemoClient 3) c4DemoChoices).trace :=
  ⟨by decide, rfl, by decide,
   ((disconnect_unregisters_before_teardown c4DemoClient 3 c4DemoChoices
      (by decide)).1 rfl).2 (by decide)⟩

/-! ### C8: `connect()` during an in-flight unregistration -/

/-- Connection-phase actions of `connect()`: starting a registration
cycle (line 89), starting the engine (line 97), registering (line 105). -/
def connPhase : Ev → Bool
  | .cycleStart _ => true
  | .uaStart => true
  | .uaRegister => true
  | _ => false

/-- Per-segment state of the single `connect()` invocation issued while
the unregistered future `q` is pending. -/
def WFrame (q : Nat) (s : Sys) (t : Frame) : Prop :=
  t.k = TaskK.connect0 ∨
  (t.k = TaskK.connect1 ∧ t.blockedOn = some q ∧
    Ev.console LogLevel.error Msg.cannotConnectWhileUnregistering ∈ s.trace) ∨
  (∃ p, t.k = TaskK.connect2 p ∧ Ev.evUnregistered ∈ s.trace) ∨
  (∃ r, t.k = TaskK.done r)

/-- Invariant for C8: the pending unregistered future `q` can only be
settled by the `unregistered` engine event, so every connection-phase
action happens strictly after that event, and entering the wait logged
on the error channel (lines 78-80). -/
structure WInv (q : Nat) (s : Sys) : Prop where
  unregSome : s.c.unregisteredPromise = some q
  qLt : q < s.fresh
  tcpSafe : ∀ x, s.c.transportConnectedPromise = some x → x ≠ q ∧ x < s.fresh
  regOnceSafe : ∀ x ∈ s.c.regOnce, x ≠ q
  regFailSafe : ∀ x ∈ s.c.regFailOnce, x ≠ q
  unregSub : ∀ x ∈ s.c.unregOnce, x = q
  pendingNil : s.pendingUaDisconnect = []
  qRes : lookupP s.resolved q ≠ none → Ev.evUnregistered ∈ s.trace
  order : evBefore s.trace connPhase isEvUnregistered
  logBefore : Ev.uaStart ∈ s.trace →
    Ev.console LogLevel.error Msg.cannotConnectWhileUnregistering ∈ s.trace
  frame : ∃ t, s.tasks = [t] ∧ WFrame q s t

theorem step_WInv {q : Nat} {s : Sys} (h : WInv q s) (ch : Choice) :
    WInv q (step s ch) := by
  obtain ⟨hus, hql, htcp, hros, hrfs, huns, hpn, hqres, horder, hlog, t, htasks, hframe⟩ := h
  cases ch with
  | runTask i =>
    cases i with
    | succ n =>
      have hg : getAt? s.tasks (n + 1) = none := by rw [htasks]; rfl
      simp only [step, hg]
      exact ⟨hus, hql, htcp, hros, hrfs, huns, hpn, hqres, horder, hlog, t, htasks, hframe⟩
    | zero =>
      have hg : getAt? s.tasks 0 = some t := by rw [htasks]; rfl
      by_cases hr : runnable s t
      · simp only [step, hg, hr, if_true]
        rcases t with ⟨k, b⟩
        rcases hframe with hk | ⟨hk, hb, hcm⟩ | ⟨p, hk, hevu⟩ | ⟨r, hk⟩
        · -- connect0 (lines 71-83): the unregistered future is pending,
          -- so the invocation logs on the error channel and awaits it
          simp only at hk
          subst hk
          cases hua : s.c.ua with
          | true =>
            simp only [runSeg, hua, if_true, hus, runSeg_tasks, htasks]
            refine ⟨hus, hql, htcp, hros, hrfs, huns, hpn,
              fun hl => List.mem_append_left _ (hqres hl), ?_, ?_,
              _, rfl, Or.inr (Or.inl ⟨rfl, rfl, List.mem_append_right _ (by simp)⟩)⟩
            · exact evBefore_append_nontrigger horder (by
                intro e he
                simp at he
                rw [he]
                rfl)
            · intro hmem
              exact List.mem_append_right _ (by simp)
          | false =>
            simp only [runSeg, hua, Bool.false_eq_true, if_false, hus,
              runSeg_tasks, htasks]
            refine ⟨rfl, Nat.lt_succ_of_lt hql, ?_, hros, hrfs, huns, hpn,
              fun hl => List.mem_append_left _ (hqres hl), ?_, ?_,
              _, rfl, Or.inr (Or.inl ⟨rfl, rfl, List.mem_append_right _ (by simp)⟩)⟩
            · intro x hx
              cases hx
              exact ⟨fun he => Nat.lt_irrefl _ (he ▸ hql), Nat.lt_succ_self _⟩
            · exact evBefore_append_nontrigger horder (by
                intro e he
                rcases List.mem_cons.mp he with he | he
                · rw [he]; rfl
                · rcases List.mem_cons.mp he with he | he
                  · rw [he]; rfl
                  · simp at he)
            · intro hmem
              exact List.mem_append_right _ (by simp)
        · -- connect1 (lines 85-97): resumed only after `q` settled
          simp only at hk hb
          subst hk
          subst hb
          have hevu : Ev.evUnregistered ∈ s.trace := by
            apply hqres
            simp only [runnable, isResolved] at hr
            intro hnone
            rw [hnone] at hr
            simp at hr
          cases hrp : s.c.registeredPromise with
          | some p =>
            simp only [runSeg, hrp, runSeg_tasks, htasks]
            exact ⟨hus, hql, htcp, hros, hrfs, huns, hpn, hqres, horder, hlog,
              _, rfl, Or.inr (Or.inr (Or.inr ⟨_, rfl⟩))⟩
          | none =>
            cases hua : s.c.ua with
            | true =>
              simp only [runSeg, hrp, hua, if_true, runSeg_tasks, htasks]
              refine ⟨hus, Nat.lt_succ_of_lt hql, ?_, ?_, ?_, huns, hpn,
                fun hl => List.mem_append_left _ (hqres hl), ?_, ?_,
                _, rfl, Or.inr (Or.inr (Or.inl ⟨s.fresh, rfl,
                  List.mem_append_left _ hevu⟩))⟩
              · intro x hx
                rcases htcp x hx with ⟨h1, h2⟩
                exact ⟨h1, Nat.lt_succ_of_lt h2⟩
              · intro x hx
                rcases List.mem_append.mp hx with hm | hm
                · exact hros x hm
                · simp at hm
                  rw [hm]
                  exact fun he => Nat.lt_irrefl _ (he ▸ hql)
              · intro x hx
                rcases List.mem_append.mp hx with hm | hm
                · exact hrfs x hm
                · simp at hm
                  rw [hm]
                  exact fun he => Nat.lt_irrefl _ (he ▸ hql)
              · exact evBefore_append horder
                  (fun e he ht => ⟨Ev.evUnregistered, hevu, rfl⟩)
              · intro hmem
                exact List.mem_append_left _ hcm
            | false =>
              simp only [runSeg, hrp, hua, Bool.false_eq_true, if_false,
                runSeg_tasks, htasks]
              refine ⟨hus, Nat.lt_succ_of_lt hql, ?_, hros, hrfs, huns, hpn, ?_, ?_, ?_,
                _, rfl, Or.inr (Or.inr (Or.inr ⟨_, rfl⟩))⟩
              · intro x hx
                rcases htcp x hx with ⟨h1, h2⟩
                exact ⟨h1, Nat.lt_succ_of_lt h2⟩
              · intro hl
                rw [lookupP_resolveP_ne (fun he => Nat.lt_irrefl _ (he ▸ hql))] at hl
                exact List.mem_append_left _ (hqres hl)
              · exact evBefore_append horder
                  (fun e he ht => ⟨Ev.evUnregistered, hevu, rfl⟩)
              · intro hmem
                rcases List.mem_append.mp hmem with hm | hm
                · exact List.mem_append_left _ (hlog hm)
                · simp at hm
        · -- connect2 (lines 100-107)
          simp only at hk
          subst hk
          have hreg2 : ∀ (s2 : Sys), s2.c = s.c → s2.resolved = s.resolved →
              s2.trace = s.trace ++ [Ev.uaRegister] →
              s2.pendingUaDisconnect = s.pendingUaDisconnect →
              s2.c.unregisteredPromise = some q → s2.fresh = s.fresh →
              s2.tasks = [⟨TaskK.done (TRes.promise p), none⟩] → WInv q s2 := by
            intro s2 hc hresv htr hp2 hu2 hf2 ht2
            refine ⟨hu2, by rw [hf2]; exact hql, ?_, ?_, ?_, ?_, by rw [hp2]; exact hpn,
              ?_, ?_, ?_, _, ht2, Or.inr (Or.inr (Or.inr ⟨_, rfl⟩))⟩
            · rw [hc, hf2]; exact htcp
            · rw [hc]; exact hros
            · rw [hc]; exact hrfs
            · rw [hc]; exact huns
            · rw [hresv, htr]
              exact fun hl => List.mem_append_left _ (hqres hl)
            · rw [htr]
              exact evBefore_append horder
                (fun e he ht => ⟨Ev.evUnregistered, hevu, rfl⟩)
            · rw [htr]
              intro hmem
              rcases List.mem_append.mp hmem with hm | hm
              · exact List.mem_append_left _ (hlog hm)
              · simp at hm
          cases b with
          | none =>
            cases hua : s.c.ua with
            | true =>
              simp only [runSeg, if_true, hua, runSeg_tasks, htasks]
              exact hreg2 _ rfl rfl rfl rfl hus rfl rfl
            | false =>
              simp only [runSeg, if_true, hua, Bool.false_eq_true, if_false,
                runSeg_tasks, htasks]
              exact ⟨hus, hql, htcp, hros, hrfs, huns, hpn, hqres, horder, hlog,
                _, rfl, Or.inr (Or.inr (Or.inr ⟨_, rfl⟩))⟩
          | some tp =>
            by_cases hlk : lookupP s.resolved tp = some false
            · simp only [runSeg, hlk, bne_self_eq_false, Bool.false_eq_true, if_false,
                runSeg_tasks, htasks]
              exact ⟨hus, hql, htcp, hros, hrfs, huns, hpn, hqres, horder, hlog,
                _, rfl, Or.inr (Or.inr (Or.inr ⟨_, rfl⟩))⟩
            · have hok : (lookupP s.resolved tp != some false) = true := by
                simp [bne_iff_ne, hlk]
              cases hua : s.c.ua with
              | true =>
                simp only [runSeg, hok, if_true, hua, runSeg_tasks, htasks]
                exact hreg2 _ rfl rfl rfl rfl hus rfl rfl
              | false =>
                simp only [runSeg, hok, if_true, hua, Bool.false_eq_true, if_false,
                  runSeg_tasks, htasks]
                exact ⟨hus, hql, htcp, hros, hrfs, huns, hpn, hqres, horder, hlog,
                  _, rfl, Or.inr (Or.inr (Or.inr ⟨_, rfl⟩))⟩
        · -- finished invocation
          simp only at hk
          subst hk
          simp only [runSeg, runSeg_tasks, htasks]
          exact ⟨hus, hql, htcp, hros, hrfs, huns, hpn, hqres, horder, hlog,
            _, rfl, Or.inr (Or.inr (Or.inr ⟨r, rfl⟩))⟩
      · simp only [step, hg, hr, if_false]
        exact ⟨hus, hql, htcp, hros, hrfs, huns, hpn, hqres, horder, hlog, t, htasks, hframe⟩
  | fireRegistered =>
    by_cases hguard : (s.c.ua && !s.c.regOnce.isEmpty) = true
    · simp only [step, fireRegistered, hguard, if_true]
      refine ⟨hus, hql, htcp, ?_, hrfs, huns, hpn, ?_, ?_, ?_, t, htasks, ?_⟩
      · intro x hx
        simp at hx
      · intro hl
        rw [lookupP_resolveAll_ne (fun p hp he => hros p hp he.symm)] at hl
        exact List.mem_append_left _ (hqres hl)
      · exact evBefore_append_nontrigger horder (by
          intro e he
          simp at he
          rw [he]
          rfl)
      · intro hmem
        rcases List.mem_append.mp hmem with hm | hm
        · exact List.mem_append_left _ (hlog hm)
        · simp at hm
      · rcases hframe with hk | ⟨hk, hb, hcm⟩ | ⟨p, hk, hevu⟩ | ⟨r, hk⟩
        · exact Or.inl hk
        · exact Or.inr (Or.inl ⟨hk, hb, List.mem_append_left _ hcm⟩)
        · exact Or.inr (Or.inr (Or.inl ⟨p, hk, List.mem_append_left _ hevu⟩))
        · exact Or.inr (Or.inr (Or.inr ⟨r, hk⟩))
    · simp only [step, fireRegistered]
      rw [if_neg hguard]
      exact ⟨hus, hql, htcp, hros, hrfs, huns, hpn, hqres, horder, hlog, t, htasks, hframe⟩
  | fireRegistrationFailed =>
    by_cases hguard : (s.c.ua && !s.c.regFailOnce.isEmpty) = true
    · simp only [step, fireRegistrationFailed, hguard, if_true]
      refine ⟨hus, hql, htcp, hros, ?_, huns, hpn, ?_, ?_, ?_, t, htasks, ?_⟩
      · intro x hx
        simp at hx
      · intro hl
        rw [lookupP_resolveAll_ne (fun p hp he => hrfs p hp he.symm)] at hl
        exact List.mem_append_left _ (hqres hl)
      · exact evBefore_append_nontrigger horder (by
          intro e he
          simp at he
          rw [he]
          rfl)
      · intro hmem
        rcases List.mem_append.mp hmem with hm | hm
        · exact List.mem_append_left _ (hlog hm)
        · simp at hm
      · rcases hframe with hk | ⟨hk, hb, hcm⟩ | ⟨p, hk, hevu⟩ | ⟨r, hk⟩
        · exact Or.inl hk
        · exact Or.inr (Or.inl ⟨hk, hb, List.mem_append_left _ hcm⟩)
        · exact Or.inr (Or.inr (Or.inl ⟨p, hk, List.mem_append_left _ hevu⟩))
        · exact Or.inr (Or.inr (Or.inr ⟨r, hk⟩))
    · simp only [step, fireRegistrationFailed]
      rw [if_neg hguard]
      exact ⟨hus, hql, htcp, hros, hrfs, huns, hpn, hqres, horder, hlog, t, htasks, hframe⟩
  | fireUnregistered =>
    by_cases hguard : (s.c.ua && !s.c.unregOnce.isEmpty) = true
    · simp only [step, fireUnregistered, hguard, if_true]
      refine ⟨hus, hql, htcp, hros, hrfs, ?_, hpn,
        fun _ => List.mem_append_right _ (by simp), ?_, ?_, t, htasks, ?_⟩
      · intro x hx
        simp at hx
      · exact evBefore_append_nontrigger horder (by
          intro e he
          simp at he
          rw [he]
          rfl)
      · intro hmem
        rcases List.mem_append.mp hmem with hm | hm
        · exact List.mem_append_left _ (hlog hm)
        · simp at hm
      · rcases hframe with hk | ⟨hk, hb, hcm⟩ | ⟨p, hk, hevu⟩ | ⟨r, hk⟩
        · exact Or.inl hk
        · exact Or.inr (Or.inl ⟨hk, hb, List.mem_append_left _ hcm⟩)
        · exact Or.inr (Or.inr (Or.inl ⟨p, hk, List.mem_append_left _ hevu⟩))
        · exact Or.inr (Or.inr (Or.inr ⟨r, hk⟩))
    · simp only [step, fireUnregistered]
      rw [if_neg hguard]
      exact ⟨hus, hql, htcp, hros, hrfs, huns, hpn, hqres, horder, hlog, t, htasks, hframe⟩
  | fireTransportConnected =>
    by_cases hua : s.c.ua = true
    · cases htp : s.c.transportConnectedPromise with
      | none =>
        simp only [step, fireTransportConnected, hua, if_true, htp]
        exact ⟨hus, hql, htcp, hros, hrfs, huns, hpn, hqres, horder, hlog, t, htasks, hframe⟩
      | some tp =>
        simp only [step, fireTransportConnected, hua, if_true, htp]
        refine ⟨hus, hql, htcp, hros, hrfs, huns, hpn, ?_, ?_, ?_, t, htasks, ?_⟩
        · intro hl
          rw [lookupP_resolveP_ne (fun he => (htcp tp htp).1 he.symm)] at hl
          exact List.mem_append_left _ (hqres hl)
        · exact evBefore_append_nontrigger horder (by
            intro e he
            simp at he
            rw [he]
            rfl)
        · intro hmem
          rcases List.mem_append.mp hmem with hm | hm
          · exact List.mem_append_left _ (hlog hm)
          · simp at hm
        · rcases hframe with hk | ⟨hk, hb, hcm⟩ | ⟨p, hk, hevu⟩ | ⟨r, hk⟩
          · exact Or.inl hk
          · exact Or.inr (Or.inl ⟨hk, hb, List.mem_append_left _ hcm⟩)
          · exact Or.inr (Or.inr (Or.inl ⟨p, hk, List.mem_append_left _ hevu⟩))
          · exact Or.inr (Or.inr (Or.inr ⟨r, hk⟩))
    · have hua2 : s.c.ua = false := by
        cases hv : s.c.ua
        · rfl
        · exact absurd hv hua
      simp only [step, fireTransportConnected, hua2, Bool.false_eq_true, if_false]
      exact ⟨hus, hql, htcp, hros, hrfs, huns, hpn, hqres, horder, hlog, t, htasks, hframe⟩
  | fireUaDisconnectDone i =>
    have hgp : getAt? s.pendingUaDisconnect i = none := by rw [hpn]; cases i <;> rfl
    simp only [step, fireUaDisconnectDone, hgp]
    exact ⟨hus, hql, htcp, hros, hrfs, huns, hpn, hqres, horder, hlog, t, htasks, hframe⟩

theorem run_WInv {q : Nat} {s : Sys} (h : WInv q s) (cs : List Choice) :
    WInv q (run s cs) := by
  induction cs generalizing s with
  | nil => exact h
  | cons ch cs ih => exact ih (step_WInv h ch)

/-- C8 (amended): a `connect()` issued while an unregistration is in
flight waits for the unregistration to finish before proceeding: in
every schedule, every connection-phase action (starting a registration
cycle, `ua.start()`, `ua.register()`) occurs strictly after the
`unregistered` engine event; and whenever the engine was started, the
waiting condition had been logged — via `console.error` (lines 78-80),
the error console channel, not a warning — while nothing is thrown. -/
theorem connect_waits_for_unregistration (c0 : Client) (q f0 : Nat)
    (cs : List Choice) (hq : q < f0)
    (htcp : ∀ x, c0.transportConnectedPromise = some x → x ≠ q ∧ x < f0) :
    evBefore (run (connectDuringUnregSys c0 q f0) cs).trace
      connPhase isEvUnregistered ∧
    (Ev.uaStart ∈ (run (connectDuringUnregSys c0 q f0) cs).trace →
      Ev.console LogLevel.error Msg.cannotConnectWhileUnregistering ∈
        (run (connectDuringUnregSys c0 q f0) cs).trace) := by
  have h0 : WInv q (connectDuringUnregSys c0 q f0) := by
    refine ⟨rfl, hq, htcp, ?_, ?_, ?_, rfl, ?_, evBefore_nil, ?_,
      ⟨.connect0, none⟩, rfl, Or.inl rfl⟩
    · intro x hx
      simp [connectDuringUnregSys] at hx
    · intro x hx
      simp [connectDuringUnregSys] at hx
    · intro x hx
      simp [connectDuringUnregSys] at hx
      exact hx
    · intro hl
      exact absurd rfl hl
    · intro hmem
      simp [connectDuringUnregSys] at hmem
  have hfin := run_WInv h0 cs
  exact ⟨hfin.order, hfin.logBefore⟩

def c8DemoClient : Client := { initialClient with ua := true }

/-- C8 counterexample: at a concrete client mid-unregistration, the
waiting condition is logged with `console.error` — an error-channel log
entry, not a warning; the run produces no warning-level entry at all
(the source contains no `console.warn` call). -/
theorem connect_unreg_wait_logged_error_level :
    (run (connectDuringUnregSys c8DemoClient 0 1) [Choice.runTask 0]).trace =
      [Ev.console LogLevel.error Msg.cannotConnectWhileUnregistering] ∧
    Ev.console LogLevel.warn Msg.cannotConnectWhileUnregistering ∉
      (run (connectDuringUnregSys c8DemoClient 0 1) [Choice.runTask 0]).trace := by
  constructor
  · decide
  · decide

def c8DemoChoices : List Choice :=
  [Choice.runTask 0, Choice.fireUnregistered, Choice.runTask 0, Choice.runTask 0]

/-- Concrete instantiation of C8: the unregistration completes, after
which the waiting `connect()` proceeds; the engine was started and the
wait had been logged on the error channel. -/
theorem connect_waits_for_unregistration_witness :
    (0 : Nat) < 1 ∧
    Ev.uaStart ∈ (run (connectDuringUnregSys c8DemoClient 0 1) c8DemoChoices).trace ∧
    Ev.console LogLevel.error Msg.cannotConnectWhileUnregistering ∈
      (run (connectDuringUnregSys c8DemoClient 0 1) c8DemoChoices).trace :=
  ⟨by decide, by decide,
   (connect_waits_for_unregistration c8DemoClient 0 1 c8DemoChoices (by decide)
      (fun x hx => nomatch hx)).2 (by decide)⟩

/-! ### C1: overlapping `connect()` calls share one registration cycle -/

theorem cycleCount_nc (tr evs : List Ev) (h : ∀ e ∈ evs, isCycleStart e = false) :
    cycleCount (tr ++ evs) = cycleCount tr := by
  rw [cycleCount_append]
  have h0 : cycleCount evs = 0 := by
    induction evs with
    | nil => rfl
    | cons e evs ih =>
      have he := h e (by simp)
      have ih2 := ih (fun e2 he2 => h e2 (List.mem_cons_of_mem _ he2))
      simp [cycleCount, List.filter_cons, he] at ih2 ⊢
      exact ih2
  rw [h0]
  rw [Nat.add_zero]

theorem cycleCount_cycle2 (tr : List Ev) (p : Nat) :
    cycleCount (tr ++ [Ev.cycleStart p, Ev.uaStart]) = cycleCount tr + 1 := by
  rw [cycleCount_append]
  rfl

theorem cycleCount_cycle1 (tr : List Ev) (p : Nat) :
    cycleCount (tr ++ [Ev.cycleStart p]) = cycleCount tr + 1 := by
  rw [cycleCount_append]
  rfl

/-- Admissible invocation states while the registration future is `p`:
a caller either has not yet reached the check at line 85, or is past it
awaiting transport readiness for the one cycle `p` (never blocked on
`p` itself), or has already returned the shared future `p`. -/
def connKinds (p : Nat) (t : Frame) : Prop :=
  t.k = TaskK.connect0 ∨ t.k = TaskK.connect1 ∨
  (t.k = TaskK.connect2 p ∧ ∀ b, t.blockedOn = some b → b ≠ p) ∨
  t.k = TaskK.done (TRes.promise p)

/-- Admissible invocation states while no registration future exists:
no caller can be past the check at line 85. -/
def preKinds (t : Frame) : Prop :=
  t.k = TaskK.connect0 ∨ t.k = TaskK.connect1

/-- Invariant for C1: the check-and-create at lines 85-95 is one atomic
segment, so the registration future is created at most once; every
finished caller returned that same future. -/
structure CInv (r0 : Option Nat) (s : Sys) : Prop where
  uaStage : s.c.ua = true ∨ ∀ t ∈ s.tasks, t.k = TaskK.connect0
  tcpLt : optLt s.c.transportConnectedPromise s.fresh
  falseOnly : ∀ x, lookupP s.resolved x = some false →
    s.c.registeredPromise = some x
  regCase :
    (s.c.registeredPromise = none ∧ r0 = none ∧ cycleCount s.trace = 0 ∧
      s.c.regFailOnce = [] ∧ (∀ t ∈ s.tasks, preKinds t)) ∨
    (∃ p, s.c.registeredPromise = some p ∧
      ((r0 = some p ∧ cycleCount s.trace = 0) ∨
       (r0 = none ∧ cycleCount s.trace = 1)) ∧
      (∀ x ∈ s.c.regFailOnce, x = p) ∧ (∀ t ∈ s.tasks, connKinds p t))

theorem step_CInv {r0 : Option Nat} {s : Sys} (h : CInv r0 s) (ch : Choice) :
    CInv r0 (step s ch) := by
  obtain ⟨hua, htcp, hfo, hcase⟩ := h
  cases ch with
  | runTask i =>
    cases hg : getAt? s.tasks i with
    | none =>
      simp only [step, hg]
      exact ⟨hua, htcp, hfo, hcase⟩
    | some t =>
      by_cases hr : runnable s t
      · simp only [step, hg, hr, if_true]
        have htmem : t ∈ s.tasks := getAt?_mem hg
        rcases t with ⟨k, b⟩
        rcases hcase with ⟨hrpn, hr0n, hcyc, hrfn, htk⟩ | ⟨p, hrp, hcycd, hrfp, htk⟩
        · -- no registration future yet
          have hkt := htk _ htmem
          rcases hkt with hkt | hkt
          · -- connect0 (lines 71-83)
            simp only at hkt
            subst hkt
            cases hua2 : s.c.ua with
            | true =>
              cases hup : s.c.unregisteredPromise with
              | some q =>
                simp only [runSeg, hua2, if_true, hup, runSeg_tasks]
                refine ⟨Or.inl hua2, htcp, hfo, Or.inl ⟨hrpn, hr0n, ?_, hrfn, ?_⟩⟩
                · rw [cycleCount_nc _ _ (by intro e he; simp at he; rw [he]; rfl)]
                  exact hcyc
                · intro t' ht'
                  rcases mem_setAt ht' with ht' | ht'
                  · exact htk t' ht'
                  · rw [ht']
                    exact Or.inr rfl
              | none =>
                simp only [runSeg, hua2, if_true, hup, runSeg_tasks]
                refine ⟨Or.inl hua2, htcp, hfo, Or.inl ⟨hrpn, hr0n, hcyc, hrfn, ?_⟩⟩
                intro t' ht'
                rcases mem_setAt ht' with ht' | ht'
                · exact htk t' ht'
                · rw [ht']
                  exact Or.inr rfl
            | false =>
              cases hup : s.c.unregisteredPromise with
              | some q =>
                simp only [runSeg, hua2, Bool.false_eq_true, if_false, hup,
                  runSeg_tasks]
                refine ⟨Or.inl rfl, Nat.lt_succ_self _, hfo,
                  Or.inl ⟨hrpn, hr0n, ?_, hrfn, ?_⟩⟩
                · rw [cycleCount_nc _ _ (by
                    intro e he
                    rcases List.mem_cons.mp he with he | he
                    · rw [he]; rfl
                    · rcases List.mem_cons.mp he with he | he
                      · rw [he]; rfl
                      · simp at he)]
                  exact hcyc
                · intro t' ht'
                  rcases mem_setAt ht' with ht' | ht'
                  · exact htk t' ht'
                  · rw [ht']
                    exact Or.inr rfl
              | none =>
                simp only [runSeg, hua2, Bool.false_eq_true, if_false, hup,
                  runSeg_tasks]
                refine ⟨Or.inl rfl, Nat.lt_succ_self _, hfo,
                  Or.inl ⟨hrpn, hr0n, ?_, hrfn, ?_⟩⟩
                · rw [cycleCount_nc _ _ (by intro e he; simp at he; rw [he]; rfl)]
                  exact hcyc
                · intro t' ht'
                  rcases mem_setAt ht' with ht' | ht'
                  · exact htk t' ht'
                  · rw [ht']
                    exact Or.inr rfl
          · -- connect1 (lines 85-97): this caller creates the one cycle
            simp only at hkt
            subst hkt
            have hua3 : s.c.ua = true := by
              rcases hua with hua | hua
              · exact hua
              · have := hua _ htmem
                simp at this
            simp only [runSeg, hrpn, hua3, if_true, runSeg_tasks]
            refine ⟨Or.inl rfl, optLt_mono htcp (Nat.le_succ _), ?_,
              Or.inr ⟨s.fresh, rfl, Or.inr ⟨hr0n, ?_⟩, ?_, ?_⟩⟩
            · intro x hx
              have := hfo x hx
              rw [hrpn] at this
              cases this
            · rw [cycleCount_cycle2]
              rw [hcyc]
            · intro x hx
              rw [hrfn] at hx
              simp at hx
              rw [hx]
            · intro t' ht'
              rcases mem_setAt ht' with ht' | ht'
              · rcases htk t' ht' with hk2 | hk2
                · exact Or.inl hk2
                · exact Or.inr (Or.inl hk2)
              · rw [ht']
                refine Or.inr (Or.inr (Or.inl ⟨rfl, ?_⟩))
                intro b2 hb2 he
                simp only at hb2
                rw [hb2] at htcp
                rw [he] at htcp
                exact Nat.lt_irrefl _ htcp
        · -- a registration future `p` exists
          have hkt := htk _ htmem
          rcases hkt with hkt | hkt | ⟨hkt, hbs⟩ | hkt
          · -- connect0
            simp only at hkt
            subst hkt
            cases hua2 : s.c.ua with
            | true =>
              cases hup : s.c.unregisteredPromise with
              | some q =>
                simp only [runSeg, hua2, if_true, hup, runSeg_tasks]
                refine ⟨Or.inl hua2, htcp, hfo, Or.inr ⟨p, hrp, ?_, hrfp, ?_⟩⟩
                · rw [cycleCount_nc _ _ (by intro e he; simp at he; rw [he]; rfl)]
                  exact hcycd
                · intro t' ht'
                  rcases mem_setAt ht' with ht' | ht'
                  · exact htk t' ht'
                  · rw [ht']
                    exact Or.inr (Or.inl rfl)
              | none =>
                simp only [runSeg, hua2, if_true, hup, runSeg_tasks]
                refine ⟨Or.inl hua2, htcp, hfo, Or.inr ⟨p, hrp, hcycd, hrfp, ?_⟩⟩
                intro t' ht'
                rcases mem_setAt ht' with ht' | ht'
                · exact htk t' ht'
                · rw [ht']
                  exact Or.inr (Or.inl rfl)
            | false =>
              cases hup : s.c.unregisteredPromise with
              | some q =>
                simp only [runSeg, hua2, Bool.false_eq_true, if_false, hup,
                  runSeg_tasks]
                refine ⟨Or.inl rfl, Nat.lt_succ_self _, hfo,
                  Or.inr ⟨p, hrp, ?_, hrfp, ?_⟩⟩
                · rw [cycleCount_nc _ _ (by
                    intro e he
                    rcases List.mem_cons.mp he with he | he
                    · rw [he]; rfl
                    · rcases List.mem_cons.mp he with he | he
                      · rw [he]; rfl
                      · simp at he)]
                  exact hcycd
                · intro t' ht'
                  rcases mem_setAt ht' with ht' | ht'
                  · exact htk t' ht'
                  · rw [ht']
                    exact Or.inr (Or.inl rfl)
              | none =>
                simp only [runSeg, hua2, Bool.false_eq_true, if_false, hup,
                  runSeg_tasks]
                refine ⟨Or.inl rfl, Nat.lt_succ_self _, hfo,
                  Or.inr ⟨p, hrp, ?_, hrfp, ?_⟩⟩
                · rw [cycleCount_nc _ _ (by intro e he; simp at he; rw [he]; rfl)]
                  exact hcycd
                · intro t' ht'
                  rcases mem_setAt ht' with ht' | ht'
                  · exact htk t' ht'
                  · rw [ht']
                    exact Or.inr (Or.inl rfl)
          · -- connect1 returns the existing future (lines 85-87)
            simp only at hkt
            subst hkt
            simp only [runSeg, hrp, runSeg_tasks]
            refine ⟨?_, htcp, hfo, Or.inr ⟨p, hrp, hcycd, hrfp, ?_⟩⟩
            · rcases hua with hua | hua
              · exact Or.inl hua
              · have := hua _ htmem
                simp at this
            · intro t' ht'
              rcases mem_setAt ht' with ht' | ht'
              · exact htk t' ht'
              · rw [ht']
                exact Or.inr (Or.inr (Or.inr rfl))
          · -- connect2: transport fulfilled, issue register (lines 100-107)
            simp only at hkt
            subst hkt
            have hua3 : s.c.ua = true := by
              rcases hua with hua | hua
              · exact hua
              · have := hua _ htmem
                simp at this
            cases b with
            | none =>
              simp only [runSeg, if_true, hua3, runSeg_tasks]
              refine ⟨Or.inl hua3, htcp, hfo, Or.inr ⟨p, hrp, ?_, hrfp, ?_⟩⟩
              · rw [cycleCount_nc _ _ (by intro e he; simp at he; rw [he]; rfl)]
                exact hcycd
              · intro t' ht'
                rcases mem_setAt ht' with ht' | ht'
                · exact htk t' ht'
                · rw [ht']
                  exact Or.inr (Or.inr (Or.inr rfl))
            | some tp =>
              have hok : (lookupP s.resolved tp != some false) = true := by
                simp only [bne_iff_ne, ne_eq]
                intro hlk
                have := hfo tp hlk
                rw [hrp] at this
                cases this
                exact hbs p rfl rfl
              simp only [runSeg, hok, if_true, hua3, runSeg_tasks]
              refine ⟨Or.inl hua3, htcp, hfo, Or.inr ⟨p, hrp, ?_, hrfp, ?_⟩⟩
              · rw [cycleCount_nc _ _ (by intro e he; simp at he; rw [he]; rfl)]
                exact hcycd
              · intro t' ht'
                rcases mem_setAt ht' with ht' | ht'
                · exact htk t' ht'
                · rw [ht']
                  exact Or.inr (Or.inr (Or.inr rfl))
          · -- finished caller
            simp only at hkt
            subst hkt
            simp only [runSeg, runSeg_tasks]
            refine ⟨?_, htcp, hfo, Or.inr ⟨p, hrp, hcycd, hrfp, ?_⟩⟩
            · rcases hua with hua | hua
              · exact Or.inl hua
              · have := hua _ htmem
                simp at this
            · intro t' ht'
              rcases mem_setAt ht' with ht' | ht'
              · exact htk t' ht'
              · rw [ht']
                exact Or.inr (Or.inr (Or.inr rfl))
      · simp only [step, hg, hr, if_false]
        exact ⟨hua, htcp, hfo, hcase⟩
  | fireRegistered =>
    by_cases hguard : (s.c.ua && !s.c.regOnce.isEmpty) = true
    · simp only [step, fireRegistered, hguard, if_true]
      refine ⟨?_, htcp, ?_, ?_⟩
      · rcases hua with hua | hua
        · exact Or.inl hua
        · exact Or.inr hua
      · intro x hx
        rcases lookupP_resolveAll hx with hx | ⟨_, hx⟩
        · exact hfo x hx
        · cases hx
      · rcases hcase with ⟨hrpn, hr0n, hcyc, hrfn, htk⟩ | ⟨p, hrp, hcycd, hrfp, htk⟩
        · refine Or.inl ⟨hrpn, hr0n, ?_, hrfn, htk⟩
          rw [cycleCount_nc _ _ (by intro e he; simp at he; rw [he]; rfl)]
          exact hcyc
        · refine Or.inr ⟨p, hrp, ?_, hrfp, htk⟩
          rcases hcycd with ⟨h1, h2⟩ | ⟨h1, h2⟩
          · exact Or.inl ⟨h1, by
              rw [cycleCount_nc _ _ (by intro e he; simp at he; rw [he]; rfl)]
              exact h2⟩
          · exact Or.inr ⟨h1, by
              rw [cycleCount_nc _ _ (by intro e he; simp at he; rw [he]; rfl)]
              exact h2⟩
    · simp only [step, fireRegistered]
      rw [if_neg hguard]
      exact ⟨hua, htcp, hfo, hcase⟩
  | fireRegistrationFailed =>
    by_cases hguard : (s.c.ua && !s.c.regFailOnce.isEmpty) = true
    · simp only [step, fireRegistrationFailed, hguard, if_true]
      rcases hcase with ⟨hrpn, hr0n, hcyc, hrfn, htk⟩ | ⟨p, hrp, hcycd, hrfp, htk⟩
      · -- impossible: the guard needs an armed listener
        exfalso
        rw [hrfn] at hguard
        simp at hguard
      · refine ⟨?_, htcp, ?_, ?_⟩
        · rcases hua with hua | hua
          · exact Or.inl hua
          · exact Or.inr hua
        · intro x hx
          rcases lookupP_resolveAll hx with hx | ⟨hx, _⟩
          · exact hfo x hx
          · rw [hrfp x hx]
            exact hrp
        · refine Or.inr ⟨p, hrp, ?_, by intro x hx; simp at hx, htk⟩
          rcases hcycd with ⟨h1, h2⟩ | ⟨h1, h2⟩
          · exact Or.inl ⟨h1, by
              rw [cycleCount_nc _ _ (by intro e he; simp at he; rw [he]; rfl)]
              exact h2⟩
          · exact Or.inr ⟨h1, by
              rw [cycleCount_nc _ _ (by intro e he; simp at he; rw [he]; rfl)]
              exact h2⟩
    · simp only [step, fireRegistrationFailed]
      rw [if_neg hguard]
      exact ⟨hua, htcp, hfo, hcase⟩
  | fireUnregistered =>
    by_cases hguard : (s.c.ua && !s.c.unregOnce.isEmpty) = true
    · simp only [step, fireUnregistered, hguard, if_true]
      refine ⟨?_, htcp, ?_, ?_⟩
      · rcases hua with hua | hua
        · exact Or.inl hua
        · exact Or.inr hua
      · intro x hx
        rcases lookupP_resolveAll hx with hx | ⟨_, hx⟩
        · exact hfo x hx
        · cases hx
      · rcases hcase with ⟨hrpn, hr0n, hcyc, hrfn, htk⟩ | ⟨p, hrp, hcycd, hrfp, htk⟩
        · refine Or.inl ⟨hrpn, hr0n, ?_, hrfn, htk⟩
          rw [cycleCount_nc _ _ (by intro e he; simp at he; rw [he]; rfl)]
          exact hcyc
        · refine Or.inr ⟨p, hrp, ?_, hrfp, htk⟩
          rcases hcycd with ⟨h1, h2⟩ | ⟨h1, h2⟩
          · exact Or.inl ⟨h1, by
              rw [cycleCount_nc _ _ (by intro e he; simp at he; rw [he]; rfl)]
              exact h2⟩
          · exact Or.inr ⟨h1, by
              rw [cycleCount_nc _ _ (by intro e he; simp at he; rw [he]; rfl)]
              exact h2⟩
    · simp only [step, fireUnregistered]
      rw [if_neg hguard]
      exact ⟨hua, htcp, hfo, hcase⟩
  | fireTransportConnected =>
    by_cases hua2 : s.c.ua = true
    · cases htp : s.c.transportConnectedPromise with
      | none =>
        simp only [step, fireTransportConnected, hua2, if_true, htp]
        exact ⟨hua, htcp, hfo, hcase⟩
      | some tp =>
        simp only [step, fireTransportConnected, hua2, if_true, htp]
        refine ⟨?_, htcp, ?_, ?_⟩
        · rcases hua with hua | hua
          · exact Or.inl hua
          · exact Or.inr hua
        · intro x hx
          rcases lookupP_resolveP hx with hx | ⟨_, hx⟩
          · exact hfo x hx
          · cases hx
        · rcases hcase with ⟨hrpn, hr0n, hcyc, hrfn, htk⟩ | ⟨p, hrp, hcycd, hrfp, htk⟩
          · refine Or.inl ⟨hrpn, hr0n, ?_, hrfn, htk⟩
            rw [cycleCount_nc _ _ (by intro e he; simp at he; rw [he]; rfl)]
            exact hcyc
          · refine Or.inr ⟨p, hrp, ?_, hrfp, htk⟩
            rcases hcycd with ⟨h1, h2⟩ | ⟨h1, h2⟩
            · exact Or.inl ⟨h1, by
                rw [cycleCount_nc _ _ (by intro e he; simp at he; rw [he]; rfl)]
                exact h2⟩
            · exact Or.inr ⟨h1, by
                rw [cycleCount_nc _ _ (by intro e he; simp at he; rw [he]; rfl)]
                exact h2⟩
    · have hua3 : s.c.ua = false := by
        cases hv : s.c.ua
        · rfl
        · exact absurd hv hua2
      simp only [step, fireTransportConnected, hua3, Bool.false_eq_true, if_false]
      exact ⟨hua, htcp, hfo, hcase⟩
  | fireUaDisconnectDone i =>
    cases hgp : getAt? s.pendingUaDisconnect i with
    | none =>
      simp only [step, fireUaDisconnectDone, hgp]
      exact ⟨hua, htcp, hfo, hcase⟩
    | some d =>
      simp only [step, fireUaDisconnectDone, hgp]
      refine ⟨?_, htcp, ?_, hcase⟩
      · rcases hua with hua | hua
        · exact Or.inl hua
        · exact Or.inr hua
      · intro x hx
        rcases lookupP_resolveP hx with hx | ⟨_, hx⟩
        · exact hfo x hx
        · cases hx

theorem run_CInv {r0 : Option Nat} {s : Sys} (h : CInv r0 s) (cs : List Choice) :
    CInv r0 (run s cs) := by
  induction cs generalizing s with
  | nil => exact h
  | cons ch cs ih => exact ih (step_CInv h ch)

/-- C1: for any number of overlapping `connect()` invocations and any
schedule of their segments and of engine events, at most one
registration cycle is ever created, all finished callers returned the
same registration future, and — when a registration was already
completed or in flight at the start — no new cycle is created at all
and every finished caller returned that existing future. -/
theorem connect_idempotent_under_overlap (c0 : Client) (n f0 : Nat)
    (cs : List Choice) (htcp : optLt c0.transportConnectedPromise f0) :
    cycleCount (run (connectSys c0 n f0) cs).trace ≤ 1 ∧
    (∀ r1 ∈ doneResults (run (connectSys c0 n f0) cs),
      ∀ r2 ∈ doneResults (run (connectSys c0 n f0) cs), r1 = r2) ∧
    (∀ p, c0.registeredPromise = some p →
      (run (connectSys c0 n f0) cs).c.registeredPromise = some p ∧
      cycleCount (run (connectSys c0 n f0) cs).trace = 0 ∧
      ∀ r ∈ doneResults (run (connectSys c0 n f0) cs), r = TRes.promise p) := by
  have h0 : CInv c0.registeredPromise (connectSys c0 n f0) := by
    refine ⟨Or.inr ?_, htcp, ?_, ?_⟩
    · intro t ht
      have := List.eq_of_mem_replicate ht
      rw [this]
    · intro x hx
      simp [connectSys, lookupP] at hx
    · cases hr0 : c0.registeredPromise with
      | none =>
        refine Or.inl ⟨hr0, rfl, rfl, rfl, ?_⟩
        intro t ht
        have := List.eq_of_mem_replicate ht
        rw [this]
        exact Or.inl rfl
      | some p =>
        refine Or.inr ⟨p, hr0, Or.inl ⟨rfl, rfl⟩, ?_, ?_⟩
        · intro x hx
          simp [connectSys] at hx
        · intro t ht
          have := List.eq_of_mem_replicate ht
          rw [this]
          exact Or.inl rfl
  have hfin := run_CInv h0 cs
  obtain ⟨_, _, _, hcase⟩ := hfin
  have hres : ∀ r ∈ doneResults (run (connectSys c0 n f0) cs),
      ∃ p, (run (connectSys c0 n f0) cs).c.registeredPromise = some p ∧
        r = TRes.promise p := by
    intro r hrm
    rcases mem_doneResults.mp hrm with ⟨t, htm, hkt⟩
    rcases hcase with ⟨_, _, _, _, htk⟩ | ⟨p, hrp, _, _, htk⟩
    · rcases htk t htm with hk2 | hk2 <;> (rw [hk2] at hkt; cases hkt)
    · rcases htk t htm with hk2 | hk2 | ⟨hk2, _⟩ | hk2
      · rw [hk2] at hkt; cases hkt
      · rw [hk2] at hkt; cases hkt
      · rw [hk2] at hkt; cases hkt
      · rw [hk2] at hkt
        cases hkt
        exact ⟨p, hrp, rfl⟩
  refine ⟨?_, ?_, ?_⟩
  · rcases hcase with ⟨_, _, hcyc, _, _⟩ | ⟨p, _, hcycd, _, _⟩
    · omega
    · rcases hcycd with ⟨_, h2⟩ | ⟨_, h2⟩ <;> omega
  · intro r1 h1 r2 h2
    rcases hres r1 h1 with ⟨p1, hp1, he1⟩
    rcases hres r2 h2 with ⟨p2, hp2, he2⟩
    rw [hp1] at hp2
    cases hp2
    rw [he1, he2]
  · intro p hr0
    rcases hcase with ⟨hrpn, hr0n, hcyc, _, _⟩ | ⟨p2, hrp, hcycd, _, _⟩
    · rw [hr0] at hr0n
      cases hr0n
    · rcases hcycd with ⟨h1, h2⟩ | ⟨h1, h2⟩
      · rw [hr0] at h1
        cases h1
        refine ⟨hrp, h2, ?_⟩
        intro r hrm
        rcases hres r hrm with ⟨p3, hp3, he3⟩
        rw [hrp] at hp3
        cases hp3
        exact he3
      · rw [hr0] at h1
        cases h1

def c1DemoClient : Client :=
  { initialClient with ua := true, registeredPromise := some 0 }

def c1DemoChoices : List Choice :=
  [Choice.runTask 0, Choice.runTask 0, Choice.runTask 1, Choice.runTask 1]

/-- Concrete instantiation of C1: two overlapping `connect()` calls on
a client whose registration is in flight; both return the existing
future `0` and no new cycle starts. -/
theorem connect_idempotent_under_overlap_witness :
    optLt c1DemoClient.transportConnectedPromise 1 ∧
    ((run (connectSys c1DemoClient 2 1) c1DemoChoices).c.registeredPromise = some 0 ∧
     cycleCount (run (connectSys c1DemoClient 2 1) c1DemoChoices).trace = 0 ∧
     ∀ r ∈ doneResults (run (connectSys c1DemoClient 2 1) c1DemoChoices),
       r = TRes.promise 0) :=
  ⟨trivial,
   (connect_idempotent_under_overlap c1DemoClient 2 1 c1DemoChoices trivial).2.2 0 rfl⟩
